import Mathlib

/-!
Verification of the mediawiki-parser AST transformation library.

The definitions below are a shallow embedding of the Rust sources:
`src/ast.rs` (data model, `Position`, `Span`, `PartialEq for Position`,
`Position::new`), `src/util.rs` (`get_source_lines`, `is_whitespace`),
`src/transformations.rs` (the non-generic in-place recursion engine, in
namespace `transformations`), `src/traversion.rs` (the read-only
`Traversion` trait), and `src/default_transformations.rs` (the current
transformation passes).  Rust `usize` is modelled as `Nat` together with
the explicit constant `USIZE_MAX`; Rust `Vec<T>` as `List T`; fallible
functions (`Result<_, E>`) as `Except E _`.  Rust strings are modelled as
Lean `String` except in the source-index component, where a source text is
modelled as a `List Char` so that UTF-8 byte offsets (`Char.utf8Size`) can
be reasoned about explicitly.
-/

/-- Position in the source document (`ast.rs`, `struct Position`). -/
structure Position where
  offset : Nat
  line : Nat
  col : Nat
deriving DecidableEq

/-- `Position::any_position` (`ast.rs`): the all-zero wildcard position. -/
def Position.any_position : Position := { offset := 0, line := 0, col := 0 }

/-- `impl PartialEq for Position` (`ast.rs`): comparing with the all-zero
"any" position is always true; otherwise the fields are compared. -/
def Position.eq (self other : Position) : Bool :=
  if (other.offset = 0 ∧ other.line = 0 ∧ other.col = 0) ∨
     (self.offset = 0 ∧ self.line = 0 ∧ self.col = 0) then
    true
  else
    self.offset = other.offset ∧ self.line = other.line ∧ self.col = other.col

/-- Start/end position pair of one element (`ast.rs`, `struct Span`).
The Rust field `end` is a Lean keyword, hence `end_`. -/
structure Span where
  start : Position
  end_ : Position
deriving DecidableEq

/-- `Span::any` (`ast.rs`). -/
def Span.any : Span := { start := Position.any_position, end_ := Position.any_position }

/-- `enum MarkupType` (`ast.rs`). -/
inductive MarkupType where
  | NoWiki | Bold | Italic | Math | StrikeThrough | Underline | Code | Blockquote | Preformatted
deriving DecidableEq

/-- `enum ListItemKind` (`ast.rs`). -/
inductive ListItemKind where
  | Unordered | Definition | DefinitionTerm | Ordered
deriving DecidableEq

/-- `struct TagAttribute` (`ast.rs`). -/
structure TagAttribute where
  position : Span
  key : String
  value : String
deriving DecidableEq

/-- `enum Element` (`ast.rs`): the 18 AST node kinds, with the fields of the
per-variant structs inlined as constructor arguments in declaration order. -/
inductive Element where
  | Document (position : Span) (content : List Element)
  | Heading (position : Span) (depth : Nat) (caption : List Element) (content : List Element)
  | Text (position : Span) (text : String)
  | Formatted (position : Span) (markup : MarkupType) (content : List Element)
  | Paragraph (position : Span) (content : List Element)
  | Template (position : Span) (name : List Element) (content : List Element)
  | TemplateArgument (position : Span) (name : String) (value : List Element)
  | InternalReference (position : Span) (target : List Element)
      (options : List (List Element)) (caption : List Element)
  | ExternalReference (position : Span) (target : String) (caption : List Element)
  | ListItem (position : Span) (depth : Nat) (kind : ListItemKind) (content : List Element)
  | List (position : Span) (content : List Element)
  | Table (position : Span) (attributes : List TagAttribute) (caption : List Element)
      (caption_attributes : List TagAttribute) (rows : List Element)
  | TableRow (position : Span) (attributes : List TagAttribute) (cells : List Element)
  | TableCell (position : Span) (header : Bool) (attributes : List TagAttribute)
      (content : List Element)
  | Comment (position : Span) (text : String)
  | HtmlTag (position : Span) (name : String) (attributes : List TagAttribute)
      (content : List Element)
  | Gallery (position : Span) (attributes : List TagAttribute) (content : List Element)
  | Error (position : Span) (message : String)

/-- `Element::get_position` (`ast.rs`). -/
def Element.get_position : Element → Span
  | .Document p _ => p
  | .Heading p _ _ _ => p
  | .Text p _ => p
  | .Formatted p _ _ => p
  | .Paragraph p _ => p
  | .Template p _ _ => p
  | .TemplateArgument p _ _ => p
  | .InternalReference p _ _ _ => p
  | .ExternalReference p _ _ => p
  | .ListItem p _ _ _ => p
  | .List p _ => p
  | .Table p _ _ _ _ => p
  | .TableRow p _ _ => p
  | .TableCell p _ _ _ => p
  | .Comment p _ => p
  | .HtmlTag p _ _ _ => p
  | .Gallery p _ _ => p
  | .Error p _ => p

/-- `util::is_whitespace` (`util.rs`): every char of the string is
whitespace (true for the empty string). -/
def is_whitespace (input : String) : Bool :=
  input.data.all Char.isWhitespace

/-- `usize::MAX` for the 64-bit targets this crate is built for. -/
def USIZE_MAX : Nat := 2 ^ 64 - 1

/-- `struct TransformationError` (`error.rs`). -/
structure TransformationError where
  cause : String
  position : Span
  transformation_name : String
  tree : Element

/-- `struct ParseError` (`error.rs`). -/
structure ParseError where
  position : Position
  expected : List String
  context : List String
  context_start : Nat
  context_end : Nat

/-- `enum MWError` (`error.rs`). -/
inductive MWError where
  | ParseError (e : ParseError)
  | TransformationError (e : TransformationError)

namespace transformations

/-!
The older, non-generic in-place recursion engine of `src/transformations.rs`.

A Rust content handler has type
`&Fn(&TFuncInplace, &mut Vec<Element>) -> Result<Vec<Element>, MWError>`:
it may mutate the child list in place *and* returns a second list which the
engine appends to the (possibly mutated) field.  It is modelled as a
function returning the pair (post-state of the `&mut Vec` argument,
returned vector). -/

/-- `TFuncInplace` (`transformations.rs`). -/
abbrev TFuncInplace := Element → Except MWError Element

/-- Type of a content handler, see above. -/
abbrev ContentFunc :=
  TFuncInplace → List Element → Except MWError (List Element × List Element)

/-- `apply_func_drain` (`transformations.rs`): apply `func` to every item in
order, short-circuiting on the first error; the drained input becomes empty. -/
def apply_func_drain (func : TFuncInplace) : List Element → Except MWError (List Element)
  | [] => .ok []
  | child :: rest => do
      let r ← func child
      let rs ← apply_func_drain func rest
      .ok (r :: rs)

/-- `apply_func_drain` packaged as a content handler: the input list is
drained (post-state `[]`) and the mapped list is returned. -/
def apply_func_drain_cf : ContentFunc := fun func content =>
  (apply_func_drain func content).map (fun r => ([], r))

/-- `recurse_inplace_template` (`transformations.rs`, lines 42-117).
For each handled variant the handler is invoked on the child lists in the
statement order of the Rust source (e.g. `content` before `caption` for
`Heading`), and each field becomes `post-state ++ returned`.  For
`InternalReference` the `options` entries are drained and replaced by the
handler's *returned* lists only.  `Text`, `Comment`, `Gallery` and `Error`
fall into the wildcard arm and are returned unchanged. -/
def recurse_inplace_template (func : TFuncInplace) (root : Element)
    (content_func : ContentFunc) : Except MWError Element :=
  match root with
  | .Document pos content => do
      let (c, nc) ← content_func func content
      .ok (.Document pos (c ++ nc))
  | .Heading pos depth caption content => do
      let (c, nc) ← content_func func content
      let (k, nk) ← content_func func caption
      .ok (.Heading pos depth (k ++ nk) (c ++ nc))
  | .Formatted pos markup content => do
      let (c, nc) ← content_func func content
      .ok (.Formatted pos markup (c ++ nc))
  | .Paragraph pos content => do
      let (c, nc) ← content_func func content
      .ok (.Paragraph pos (c ++ nc))
  | .Template pos name content => do
      let (c, nc) ← content_func func content
      .ok (.Template pos name (c ++ nc))
  | .TemplateArgument pos name value => do
      let (v, nv) ← content_func func value
      .ok (.TemplateArgument pos name (v ++ nv))
  | .InternalReference pos target options caption => do
      let (t, nt) ← content_func func target
      let (k, nk) ← content_func func caption
      let no ← options.mapM (fun option => (content_func func option).map Prod.snd)
      .ok (.InternalReference pos (t ++ nt) no (k ++ nk))
  | .ExternalReference pos target caption => do
      let (k, nk) ← content_func func caption
      .ok (.ExternalReference pos target (k ++ nk))
  | .ListItem pos depth kind content => do
      let (c, nc) ← content_func func content
      .ok (.ListItem pos depth kind (c ++ nc))
  | .List pos content => do
      let (c, nc) ← content_func func content
      .ok (.List pos (c ++ nc))
  | .Table pos attributes caption caption_attributes rows => do
      let (k, nk) ← content_func func caption
      let (r, nr) ← content_func func rows
      .ok (.Table pos attributes (k ++ nk) caption_attributes (r ++ nr))
  | .TableRow pos attributes cells => do
      let (c, nc) ← content_func func cells
      .ok (.TableRow pos attributes (c ++ nc))
  | .TableCell pos header attributes content => do
      let (c, nc) ← content_func func content
      .ok (.TableCell pos header attributes (c ++ nc))
  | .HtmlTag pos name attributes content => do
      let (c, nc) ← content_func func content
      .ok (.HtmlTag pos name attributes (c ++ nc))
  | other => .ok other

/-- `recurse_ast_inplace` (`transformations.rs`). -/
def recurse_ast_inplace (func : TFuncInplace) (root : Element) : Except MWError Element :=
  recurse_inplace_template func root apply_func_drain_cf

end transformations

/-!
`src/traversion.rs`: the read-only `Traversion` trait.  An implementor is
modelled by a state type `σ` (covering all mutable fields of the
implementing struct other than the ancestor path, together with anything
written to the `out` sink) and the two hook methods.  The ancestor path
(`path_push` / `path_pop` / `get_path`) is modelled explicitly as a
`List Element` threaded through `run`; `path_push` appends at the end and
`path_pop` removes the last entry, as a `Vec`-backed implementation does.
The read-only `settings` value is constant and folded into the hooks.
-/

/-- The hooks of a `Traversion` implementor (`traversion.rs`): `work` and
`work_vec` may update the state, write output (also part of `σ`), fail, or
return `false` to prune. -/
structure Traversion (σ : Type) where
  work : σ → Element → Except MWError (σ × Bool)
  work_vec : σ → List Element → Except MWError (σ × Bool)

mutual

/-- `Traversion::run` (`traversion.rs`, lines 56-139): push the node, call
`work`; on `false` return *without popping*; otherwise recurse into the
child lists in the order of the Rust `match` arms and then pop. -/
def Traversion.run (t : Traversion σ) (s : σ) (path : List Element)
    (root : Element) : Except MWError (σ × List Element) :=
  let path1 := path ++ [root]
  match t.work s root with
  | .error e => .error e
  | .ok (s1, false) => .ok (s1, path1)
  | .ok (s1, true) =>
    match root with
    | .Document _ content => do
        let (s2, p2) ← Traversion.run_vec t s1 path1 content
        .ok (s2, p2.dropLast)
    | .Heading _ _ caption content => do
        let (s2, p2) ← Traversion.run_vec t s1 path1 caption
        let (s3, p3) ← Traversion.run_vec t s2 p2 content
        .ok (s3, p3.dropLast)
    | .Text _ _ => .ok (s1, path1.dropLast)
    | .Formatted _ _ content => do
        let (s2, p2) ← Traversion.run_vec t s1 path1 content
        .ok (s2, p2.dropLast)
    | .Paragraph _ content => do
        let (s2, p2) ← Traversion.run_vec t s1 path1 content
        .ok (s2, p2.dropLast)
    | .Template _ name content => do
        let (s2, p2) ← Traversion.run_vec t s1 path1 content
        let (s3, p3) ← Traversion.run_vec t s2 p2 name
        .ok (s3, p3.dropLast)
    | .TemplateArgument _ _ value => do
        let (s2, p2) ← Traversion.run_vec t s1 path1 value
        .ok (s2, p2.dropLast)
    | .InternalReference _ target options caption => do
        let (s2, p2) ← Traversion.run_vec t s1 path1 target
        let (s3, p3) ← Traversion.run_vec_options t s2 p2 options
        let (s4, p4) ← Traversion.run_vec t s3 p3 caption
        .ok (s4, p4.dropLast)
    | .ExternalReference _ _ caption => do
        let (s2, p2) ← Traversion.run_vec t s1 path1 caption
        .ok (s2, p2.dropLast)
    | .ListItem _ _ _ content => do
        let (s2, p2) ← Traversion.run_vec t s1 path1 content
        .ok (s2, p2.dropLast)
    | .List _ content => do
        let (s2, p2) ← Traversion.run_vec t s1 path1 content
        .ok (s2, p2.dropLast)
    | .Table _ _ caption _ rows => do
        let (s2, p2) ← Traversion.run_vec t s1 path1 caption
        let (s3, p3) ← Traversion.run_vec t s2 p2 rows
        .ok (s3, p3.dropLast)
    | .TableRow _ _ cells => do
        let (s2, p2) ← Traversion.run_vec t s1 path1 cells
        .ok (s2, p2.dropLast)
    | .TableCell _ _ _ content => do
        let (s2, p2) ← Traversion.run_vec t s1 path1 content
        .ok (s2, p2.dropLast)
    | .Comment _ _ => .ok (s1, path1.dropLast)
    | .HtmlTag _ _ _ content => do
        let (s2, p2) ← Traversion.run_vec t s1 path1 content
        .ok (s2, p2.dropLast)
    | .Gallery _ _ content => do
        let (s2, p2) ← Traversion.run_vec t s1 path1 content
        .ok (s2, p2.dropLast)
    | .Error _ _ => .ok (s1, path1.dropLast)

/-- `Traversion::run_vec` (`traversion.rs`, lines 42-54): call `work_vec`;
on `false` skip the whole list, otherwise run every element in order. -/
def Traversion.run_vec (t : Traversion σ) (s : σ) (path : List Element)
    (content : List Element) : Except MWError (σ × List Element) :=
  match t.work_vec s content with
  | .error e => .error e
  | .ok (s1, false) => .ok (s1, path)
  | .ok (s1, true) => Traversion.run_elems t s1 path content

/-- The `for elem in &content` loop inside `run_vec`. -/
def Traversion.run_elems (t : Traversion σ) (s : σ) (path : List Element) :
    List Element → Except MWError (σ × List Element)
  | [] => .ok (s, path)
  | elem :: rest => do
      let (s1, p1) ← Traversion.run t s path elem
      Traversion.run_elems t s1 p1 rest

/-- The `for option in options` loop inside `run` for `InternalReference`. -/
def Traversion.run_vec_options (t : Traversion σ) (s : σ) (path : List Element) :
    List (List Element) → Except MWError (σ × List Element)
  | [] => .ok (s, path)
  | option :: rest => do
      let (s1, p1) ← Traversion.run_vec t s path option
      Traversion.run_vec_options t s1 p1 rest

end


/-!
The settings-generic in-place recursion engine used by
`src/default_transformations.rs` (`TFuncInplace<S>`, `TListResult`,
`apply_func_drain`, `recurse_inplace`, `recurse_inplace_template`).  That
version of `transformations.rs` is not under `src/`; only its callers are.
It is therefore modelled from the spec (§4.2): each pass has signature
`fn(Element, Settings) -> Result<Element, TransformationError>`; the engine
dispatches on the variant and replaces every child list by the result of
the content handler, visiting the lists in declaration order (caption
before content for `Heading`; name before content for `Template`; target,
then each option list, then caption for `InternalReference`), propagating
the first error; variants without child lists pass through unchanged; the
default handler `apply_func_drain` drains the list and maps the function
over each element in original order, short-circuiting on the first error.
-/

/-- `GeneralSettings` (`default_transformations.rs`): empty settings struct. -/
structure GeneralSettings where

/-- Modelled from the spec: `TFuncInplace<S>` of the settings-generic
engine, `fn(Element, S) -> Result<Element, TransformationError>`. -/
abbrev TFuncInplaceS (S : Type) := Element → S → Except TransformationError Element

/-- Modelled from the spec: `TListResult`. -/
abbrev TListResult := Except TransformationError (List Element)

/-- Modelled from the spec: the type of a settings-generic content handler
as used in `default_transformations.rs`
(`&Fn(&TFuncInplace<S>, &mut Vec<Element>, S) -> TListResult`). -/
abbrev ContentFuncS (S : Type) := TFuncInplaceS S → List Element → S → TListResult

/-- Modelled from the spec: the settings-generic `apply_func_drain`;
maps `func` over the drained list in original order, short-circuiting on
the first error. -/
def apply_func_drain_s (func : TFuncInplaceS S) : List Element → S → TListResult
  | [], _ => .ok []
  | child :: rest, settings => do
      let r ← func child settings
      let rs ← apply_func_drain_s func rest settings
      .ok (r :: rs)

/-- Modelled from the spec: the settings-generic `recurse_inplace_template`:
replace every child list of the variant by the handler's result, in
declaration order, propagating the first error; `Text`, `Comment` and
`Error` have no child lists and pass through unchanged. -/
def recurse_inplace_template_s (func : TFuncInplaceS S) (root : Element)
    (settings : S) (content_func : ContentFuncS S) :
    Except TransformationError Element :=
  match root with
  | .Document pos content => do
      let content ← content_func func content settings
      .ok (.Document pos content)
  | .Heading pos depth caption content => do
      let caption ← content_func func caption settings
      let content ← content_func func content settings
      .ok (.Heading pos depth caption content)
  | .Text pos text => .ok (.Text pos text)
  | .Formatted pos markup content => do
      let content ← content_func func content settings
      .ok (.Formatted pos markup content)
  | .Paragraph pos content => do
      let content ← content_func func content settings
      .ok (.Paragraph pos content)
  | .Template pos name content => do
      let name ← content_func func name settings
      let content ← content_func func content settings
      .ok (.Template pos name content)
  | .TemplateArgument pos name value => do
      let value ← content_func func value settings
      .ok (.TemplateArgument pos name value)
  | .InternalReference pos target options caption => do
      let target ← content_func func target settings
      let options ← options.mapM (fun option => content_func func option settings)
      let caption ← content_func func caption settings
      .ok (.InternalReference pos target options caption)
  | .ExternalReference pos target caption => do
      let caption ← content_func func caption settings
      .ok (.ExternalReference pos target caption)
  | .ListItem pos depth kind content => do
      let content ← content_func func content settings
      .ok (.ListItem pos depth kind content)
  | .List pos content => do
      let content ← content_func func content settings
      .ok (.List pos content)
  | .Table pos attributes caption caption_attributes rows => do
      let caption ← content_func func caption settings
      let rows ← content_func func rows settings
      .ok (.Table pos attributes caption caption_attributes rows)
  | .TableRow pos attributes cells => do
      let cells ← content_func func cells settings
      .ok (.TableRow pos attributes cells)
  | .TableCell pos header attributes content => do
      let content ← content_func func content settings
      .ok (.TableCell pos header attributes content)
  | .Comment pos text => .ok (.Comment pos text)
  | .HtmlTag pos name attributes content => do
      let content ← content_func func content settings
      .ok (.HtmlTag pos name attributes content)
  | .Gallery pos attributes content => do
      let content ← content_func func content settings
      .ok (.Gallery pos attributes content)
  | .Error pos message => .ok (.Error pos message)

/-- Modelled from the spec: the settings-generic `recurse_inplace` =
`recurse_inplace_template` with the default handler. -/
def recurse_inplace_s (func : TFuncInplaceS S) (root : Element) (settings : S) :
    Except TransformationError Element :=
  recurse_inplace_template_s func root settings (fun f l s => apply_func_drain_s f l s)

mutual

/-- Computable size of an element, used as the fuel bound of the public
pass wrappers below. -/
def element_size : Element → Nat
  | .Document _ c => element_size_list c + 1
  | .Heading _ _ cap c => element_size_list cap + element_size_list c + 1
  | .Text _ _ => 1
  | .Formatted _ _ c => element_size_list c + 1
  | .Paragraph _ c => element_size_list c + 1
  | .Template _ n c => element_size_list n + element_size_list c + 1
  | .TemplateArgument _ _ v => element_size_list v + 1
  | .InternalReference _ t o cap =>
      element_size_list t + element_size_list_list o + element_size_list cap + 1
  | .ExternalReference _ _ cap => element_size_list cap + 1
  | .ListItem _ _ _ c => element_size_list c + 1
  | .List _ c => element_size_list c + 1
  | .Table _ _ cap _ rows => element_size_list cap + element_size_list rows + 1
  | .TableRow _ _ cells => element_size_list cells + 1
  | .TableCell _ _ _ c => element_size_list c + 1
  | .Comment _ _ => 1
  | .HtmlTag _ _ _ c => element_size_list c + 1
  | .Gallery _ _ c => element_size_list c + 1
  | .Error _ _ => 1

def element_size_list : List Element → Nat
  | [] => 0
  | x :: xs => element_size x + element_size_list xs

def element_size_list_list : List (List Element) → Nat
  | [] => 0
  | x :: xs => element_size_list x + element_size_list_list xs

end

/-- Sentinel error returned by the fueled passes below when the fuel runs
out.  It is an artifact of the embedding (the Rust recursion is structural
on the tree and always terminates); the public wrappers supply enough fuel
that it is never returned. -/
def fuelError : TransformationError :=
  { cause := "fuel exhausted (embedding artifact)"
    position := Span.any
    transformation_name := "fuel"
    tree := .Error Span.any "fuel" }

/-!
The transformation passes of `src/default_transformations.rs`.  Each inner
`for child in root_content.drain(..)` loop is modelled as a standalone
structurally recursive scan over the remaining children, with the loop's
mutable locals as accumulator arguments.  The recursion of each pass
through the engine is modelled with a fuel argument (structural on `Nat`);
the public wrapper supplies `sizeOf root + 1` fuel, which bounds the
recursion depth of the Rust original.
-/

/-- The loop of `move_deeper_headings` (`default_transformations.rs`,
lines 24-51): accumulator `result`, reference index
`current_heading_index`, reference depth `current_depth`. -/
def move_deeper_headings_scan :
    List Element → List Element → Nat → Nat → Except TransformationError (List Element)
  | [], result, _, _ => .ok result
  | child :: rest, result, current_heading_index, current_depth =>
    match child with
    | .Heading pos depth caption content =>
      if depth > current_depth then
        match result.get? current_heading_index with
        | some (.Heading p d cap con) =>
            move_deeper_headings_scan rest
              (result.set current_heading_index
                (.Heading p d cap (con ++ [.Heading pos depth caption content])))
              current_heading_index current_depth
        | _ => move_deeper_headings_scan rest result current_heading_index current_depth
      else
        move_deeper_headings_scan rest (result ++ [.Heading pos depth caption content])
          result.length depth
    | _ =>
      if current_depth < USIZE_MAX then
        .error
          { cause := "a non-heading element was found after a heading. This should not happen."
            position := child.get_position
            transformation_name := "fold_headings_transformation"
            tree := child }
      else
        move_deeper_headings_scan rest (result ++ [child]) current_heading_index current_depth

/-- `move_deeper_headings` (`default_transformations.rs`): run the scan,
then re-apply the pass to every element of the result list. -/
def move_deeper_headings (trans : TFuncInplaceS GeneralSettings)
    (root_content : List Element) (settings : GeneralSettings) : TListResult := do
  let result ← move_deeper_headings_scan root_content [] 0 USIZE_MAX
  apply_func_drain_s trans result settings

/-- `fold_headings_transformation` (`default_transformations.rs`,
lines 11-64), with fuel. -/
def fold_headings_transformationF :
    Nat → Element → GeneralSettings → Except TransformationError Element
  | 0, _, _ => .error fuelError
  | n + 1, root, settings =>
      recurse_inplace_template_s (fun e s => fold_headings_transformationF n e s)
        root settings (fun trans l s => move_deeper_headings trans l s)

/-- `fold_headings_transformation`: public wrapper with sufficient fuel. -/
def fold_headings_transformation (root : Element) (settings : GeneralSettings) :
    Except TransformationError Element :=
  fold_headings_transformationF (element_size root + 1) root settings

/-- The error builder of `move_deeper_items`
(`default_transformations.rs`, lines 102-107). -/
def build_found_error (pos : Span) (depth : Nat) (kind : ListItemKind)
    (content : List Element) : TransformationError :=
  { cause := "sublist was not instantiated properly."
    transformation_name := "fold_lists_transformation"
    position := pos
    tree := .ListItem pos depth kind content }

/-- The first loop of `move_deeper_items` (`default_transformations.rs`,
lines 78-92): compute the minimal `ListItem` depth, failing on any
non-`ListItem` child. -/
def lowest_depth_scan : List Element → Nat → Except TransformationError Nat
  | [], acc => .ok acc
  | child :: rest, acc =>
    match child with
    | .ListItem _ depth _ _ =>
        lowest_depth_scan rest (if depth < acc then depth else acc)
    | _ =>
        .error
          { cause := "A list should not contain non-listitems."
            transformation_name := "fold_lists_transformation"
            position := child.get_position
            tree := child }

/-- The second loop of `move_deeper_items` (`default_transformations.rs`,
lines 94-147): items deeper than `lowest_depth` are pushed into a `List`
appended to the last sibling item's content (the `List` is created lazily
once per deeper run; a placeholder item is synthesized if no sibling
exists yet). -/
def move_deeper_items_scan :
    List Element → List Element → Bool → Nat → Except TransformationError (List Element)
  | [], result, _, _ => .ok result
  | child :: rest, result, create_sublist, lowest_depth =>
    match child with
    | .ListItem pos depth kind content =>
      if depth > lowest_depth then
        let created : Except TransformationError (List Element) :=
          if create_sublist then
            let result := if result.isEmpty
              then [.ListItem pos lowest_depth kind []] else result
            match result.getLast? with
            | some (.ListItem p d k c) =>
                .ok (result.dropLast ++ [.ListItem p d k (c ++ [.List pos []])])
            | _ => .error (build_found_error pos depth kind content)
          else .ok result
        match created with
        | .error e => .error e
        | .ok result1 =>
          match result1.getLast? with
          | some (.ListItem p d k c) =>
            match c.getLast? with
            | some (.List lp lc) =>
                move_deeper_items_scan rest
                  (result1.dropLast ++
                    [.ListItem p d k
                      (c.dropLast ++ [.List lp (lc ++ [.ListItem pos depth kind content])])])
                  false lowest_depth
            | _ => .error (build_found_error pos depth kind content)
          | _ => .error (build_found_error pos depth kind content)
      else
        move_deeper_items_scan rest (result ++ [.ListItem pos depth kind content])
          true lowest_depth
    | _ => move_deeper_items_scan rest (result ++ [child]) create_sublist lowest_depth

/-- `move_deeper_items` (`default_transformations.rs`). -/
def move_deeper_items (trans : TFuncInplaceS GeneralSettings)
    (root_content : List Element) (settings : GeneralSettings) : TListResult := do
  let lowest_depth ← lowest_depth_scan root_content USIZE_MAX
  let result ← move_deeper_items_scan root_content [] true lowest_depth
  apply_func_drain_s trans result settings

/-- `fold_lists_transformation` (`default_transformations.rs`,
lines 69-163), with fuel. -/
def fold_lists_transformationF :
    Nat → Element → GeneralSettings → Except TransformationError Element
  | 0, _, _ => .error fuelError
  | n + 1, root, settings =>
    match root with
    | .List _ _ =>
        recurse_inplace_template_s (fun e s => fold_lists_transformationF n e s)
          root settings (fun trans l s => move_deeper_items trans l s)
    | _ => recurse_inplace_s (fun e s => fold_lists_transformationF n e s) root settings

/-- `fold_lists_transformation`: public wrapper with sufficient fuel. -/
def fold_lists_transformation (root : Element) (settings : GeneralSettings) :
    Except TransformationError Element :=
  fold_lists_transformationF (element_size root + 1) root settings

/-- The loop of `squash_empty_paragraphs` inside `collapse_paragraphs`
(`default_transformations.rs`, lines 199-226): drop empty paragraphs; a
non-empty paragraph directly following one that was kept (no intervening
empty paragraph) is merged into it with a single-space `Text` separator
(carrying the previous paragraph's span) and the previous span's end is
extended. -/
def squash_paragraphs_scan : List Element → List Element → Bool → List Element
  | [], result, _ => result
  | child :: rest, result, last_empty =>
    match child with
    | .Paragraph pos content =>
      if content.isEmpty then squash_paragraphs_scan rest result true
      else if last_empty then squash_paragraphs_scan rest (result ++ [.Paragraph pos content]) false
      else
        match result.getLast? with
        | some (.Paragraph lpos lcontent) =>
            squash_paragraphs_scan rest
              (result.dropLast ++
                [.Paragraph { lpos with end_ := pos.end_ }
                  (lcontent ++ [.Text lpos " "] ++ content)])
              false
        | _ => squash_paragraphs_scan rest (result ++ [.Paragraph pos content]) false
    | _ => squash_paragraphs_scan rest (result ++ [child]) false

/-- `squash_empty_paragraphs` (`default_transformations.rs`). -/
def squash_empty_paragraphs (trans : TFuncInplaceS GeneralSettings)
    (root_content : List Element) (settings : GeneralSettings) : TListResult :=
  apply_func_drain_s trans (squash_paragraphs_scan root_content [] false) settings

/-- `collapse_paragraphs` (`default_transformations.rs`, lines 190-237),
with fuel. -/
def collapse_paragraphsF :
    Nat → Element → GeneralSettings → Except TransformationError Element
  | 0, _, _ => .error fuelError
  | n + 1, root, settings =>
      recurse_inplace_template_s (fun e s => collapse_paragraphsF n e s)
        root settings (fun trans l s => squash_empty_paragraphs trans l s)

/-- `collapse_paragraphs`: public wrapper with sufficient fuel. -/
def collapse_paragraphs (root : Element) (settings : GeneralSettings) :
    Except TransformationError Element :=
  collapse_paragraphsF (element_size root + 1) root settings

/-- The loop of `squash_text` inside `collapse_consecutive_text`
(`default_transformations.rs`, lines 249-264): a `Text` node whose
predecessor in the result is a `Text` node is merged into it — a single
space is appended if the incoming text is whitespace-only, otherwise the
incoming text verbatim — and the merged span's end is extended. -/
def squash_text_scan : List Element → List Element → List Element
  | [], result => result
  | child :: rest, result =>
    match child with
    | .Text pos text =>
      match result.getLast? with
      | some (.Text lpos ltext) =>
          squash_text_scan rest
            (result.dropLast ++
              [.Text { lpos with end_ := pos.end_ }
                (if is_whitespace text then ltext ++ " " else ltext ++ text)])
      | _ => squash_text_scan rest (result ++ [.Text pos text])
    | _ => squash_text_scan rest (result ++ [child])

/-- `squash_text` (`default_transformations.rs`). -/
def squash_text (trans : TFuncInplaceS GeneralSettings)
    (root_content : List Element) (settings : GeneralSettings) : TListResult :=
  apply_func_drain_s trans (squash_text_scan root_content []) settings

/-- `collapse_consecutive_text` (`default_transformations.rs`,
lines 240-270), with fuel. -/
def collapse_consecutive_textF :
    Nat → Element → GeneralSettings → Except TransformationError Element
  | 0, _, _ => .error fuelError
  | n + 1, root, settings =>
      recurse_inplace_template_s (fun e s => collapse_consecutive_textF n e s)
        root settings (fun trans l s => squash_text trans l s)

/-- `collapse_consecutive_text`: public wrapper with sufficient fuel. -/
def collapse_consecutive_text (root : Element) (settings : GeneralSettings) :
    Except TransformationError Element :=
  collapse_consecutive_textF (element_size root + 1) root settings

/-- The loop of `enumerate_anon_args` (`default_transformations.rs`,
lines 275-284): rename each `TemplateArgument` child whose trimmed name is
empty to the next value of the counter (as a decimal string). -/
def enum_args_go : List Element → Nat → List Element
  | [], _ => []
  | child :: rest, counter =>
    match child with
    | .TemplateArgument pos name value =>
      -- `arg.name.trim().is_empty()` holds exactly when every char of the
      -- name is whitespace, i.e. `is_whitespace name`.
      if is_whitespace name then
        .TemplateArgument pos (toString counter) value :: enum_args_go rest (counter + 1)
      else
        .TemplateArgument pos name value :: enum_args_go rest counter
    | _ => child :: enum_args_go rest counter

/-- `enumerate_anon_args` (`default_transformations.rs`, lines 273-287),
with fuel: rename the anonymous arguments of a `Template`, then recurse. -/
def enumerate_anon_argsF :
    Nat → Element → GeneralSettings → Except TransformationError Element
  | 0, _, _ => .error fuelError
  | n + 1, root, settings =>
    let root1 : Element :=
      match root with
      | .Template pos name content => .Template pos name (enum_args_go content 1)
      | other => other
    recurse_inplace_s (fun e s => enumerate_anon_argsF n e s) root1 settings

/-- `enumerate_anon_args`: public wrapper with sufficient fuel. -/
def enumerate_anon_args (root : Element) (settings : GeneralSettings) :
    Except TransformationError Element :=
  enumerate_anon_argsF (element_size root + 1) root settings

/-!
The source index: `util::get_source_lines` and `ast::Position::new`.
A source text is modelled as a `List Char`; byte offsets are measured with
`Char.utf8Size`, matching Rust's `str` representation.
-/

/-- UTF-8 byte length of a char-list string (Rust `str::len`). -/
def utf8_len : List Char → Nat
  | [] => 0
  | c :: rest => c.utf8Size + utf8_len rest

/-- Rust `source.split('\n')`: always at least one piece; a trailing
newline yields a final empty piece. -/
def split_newlines : List Char → List (List Char)
  | [] => [[]]
  | c :: rest =>
    if c = '\n' then [] :: split_newlines rest
    else
      match split_newlines rest with
      | l :: ls => (c :: l) :: ls
      | [] => [[c]]

/-- `struct SourceLine` (`ast.rs`): byte range of one line (the `end` is
one past the line's content, accounting for the newline). -/
structure SourceLine where
  start : Nat
  content : List Char
  end_ : Nat

/-- The loop of `get_source_lines` (`util.rs`): running byte position. -/
def get_source_lines_go : Nat → List (List Char) → List SourceLine
  | _, [] => []
  | pos, line :: rest =>
      { start := pos, content := line, end_ := pos + utf8_len line + 1 } ::
        get_source_lines_go (pos + utf8_len line + 1) rest

/-- `get_source_lines` (`util.rs`, lines 13-27). -/
def get_source_lines (source : List Char) : List SourceLine :=
  get_source_lines_go 0 (split_newlines source)

/-- Number of chars in the byte-prefix of length `n` of a string, `none`
when `n` does not lie on a character boundary — in which case the Rust
byte-range slice `&sloc.content[0..n]` in `Position::new` panics. -/
def chars_of_bytes : List Char → Nat → Option Nat
  | [], 0 => some 0
  | [], _ + 1 => none
  | _ :: _, 0 => some 0
  | c :: rest, n + 1 =>
      if c.utf8Size ≤ n + 1 then
        (chars_of_bytes rest (n + 1 - c.utf8Size)).map (fun k => k + 1)
      else none

/-- The loop of `Position::new` (`ast.rs`, lines 396-412): find the first
line whose byte range contains `offset`; its column is the 1-based char
count of `content[0..offset - start]` (a panic there is modelled as
`none`); if no line matches, fall back to `line = slocs.len() + 1`,
`col = 0`. -/
def Position.new_go (offset total_lines : Nat) : Nat → List SourceLine → Option Position
  | _, [] => some { offset := offset, line := total_lines + 1, col := 0 }
  | i, sloc :: rest =>
      if sloc.start ≤ offset ∧ offset < sloc.end_ then
        (chars_of_bytes sloc.content (offset - sloc.start)).map
          (fun k => { offset := offset, line := i + 1, col := k + 1 })
      else
        Position.new_go offset total_lines (i + 1) rest

/-- `Position::new` (`ast.rs`). -/
def Position.new (offset : Nat) (slocs : List SourceLine) : Option Position :=
  Position.new_go offset slocs.length 0 slocs

/-!
Specification-side definitions, written from the wording of the claims,
used as refinement targets for the scan loops above.
-/

/-- Specification of claim C5, by lookahead on the input list: empty
paragraphs are dropped; a non-empty paragraph whose immediate follower is
a non-empty paragraph absorbs it (single-space `Text` separator carrying
the accumulated span, then the follower's content, span end extended);
a paragraph followed by an empty one stays a separate entry. -/
def collapse_paragraphs_spec : List Element → List Element
  | [] => []
  | .Paragraph pos content :: .Paragraph qpos qcontent :: rest2 =>
    if content.isEmpty then
      collapse_paragraphs_spec (.Paragraph qpos qcontent :: rest2)
    else if qcontent.isEmpty then
      .Paragraph pos content :: collapse_paragraphs_spec (.Paragraph qpos qcontent :: rest2)
    else
      collapse_paragraphs_spec
        (.Paragraph { pos with end_ := qpos.end_ }
          (content ++ [.Text pos " "] ++ qcontent) :: rest2)
  | .Paragraph pos content :: rest =>
    if content.isEmpty then collapse_paragraphs_spec rest
    else .Paragraph pos content :: collapse_paragraphs_spec rest
  | x :: rest => x :: collapse_paragraphs_spec rest
termination_by l => l.length
decreasing_by all_goals simp_wf

/-- Specification of claim C6, by lookahead on the input list: a `Text`
node followed by another `Text` node absorbs it — appending a single
space if the incoming text is whitespace-only, the incoming text verbatim
otherwise — extending the span end. -/
def collapse_text_spec : List Element → List Element
  | [] => []
  | .Text pos text :: .Text qpos qtext :: rest2 =>
      collapse_text_spec
        (.Text { pos with end_ := qpos.end_ }
          (if is_whitespace qtext then text ++ " " else text ++ qtext) :: rest2)
  | .Text pos text :: rest => .Text pos text :: collapse_text_spec rest
  | x :: rest => x :: collapse_text_spec rest
termination_by l => l.length
decreasing_by all_goals simp_wf

/-- The name of a `TemplateArgument`, `none` for any other element. -/
def arg_name : Element → Option String
  | .TemplateArgument _ name _ => some name
  | _ => none

/-- Specification of claim C7: expected names of a template's children
after the pass — each `TemplateArgument` whose trimmed name is empty gets
the next counter value (1-based, as a string), named arguments keep their
name and do not consume a counter value, non-arguments have no name. -/
def enum_names_spec : List Element → Nat → List (Option String)
  | [], _ => []
  | child :: rest, counter =>
    match arg_name child with
    | some name =>
      if is_whitespace name then
        some (toString counter) :: enum_names_spec rest (counter + 1)
      else
        some name :: enum_names_spec rest counter
    | none => none :: enum_names_spec rest counter

/-!
Instrumented content handlers and `Traversion` instances used to observe
which child lists the recursion engines visit, and in which order.
-/

/-- Content handler for the old engine that fails exactly when `g` yields
an error on the visited list and otherwise drains it, returning it
unchanged (like `apply_func_drain` with the identity). -/
def probe_cf (g : List Element → Option MWError) : transformations.ContentFunc :=
  fun _func l =>
    match g l with
    | some e => .error e
    | none => .ok ([], l)

/-- Content handler for the old engine that rewrites every visited list
with `r` (drained, like `apply_func_drain`). -/
def apply_cf (r : List Element → List Element) : transformations.ContentFunc :=
  fun _func l => .ok ([], r l)

/-- `Traversion` instance whose `work_vec` hook fails exactly when `g`
yields an error on the visited list; `work` always continues. -/
def probe_trav (g : List Element → Option MWError) : Traversion Unit :=
  { work := fun s _ => .ok (s, true)
    work_vec := fun s l =>
      match g l with
      | some e => .error e
      | none => .ok (s, true) }

/-- `Traversion` instance whose `work` hook always prunes. -/
def prune_trav : Traversion Unit :=
  { work := fun s _ => .ok (s, false)
    work_vec := fun s _ => .ok (s, true) }

/-- Whether an element is a `Heading`. -/
def is_heading : Element → Bool
  | .Heading _ _ _ _ => true
  | _ => false

/-- Whether an element is a `ListItem`. -/
def is_list_item : Element → Bool
  | .ListItem _ _ _ _ => true
  | _ => false

/-- Whether byte index `n` lies on a character boundary of the string. -/
def is_char_boundary (l : List Char) (n : Nat) : Bool :=
  (chars_of_bytes l n).isSome

/-- Inverse of `split_newlines`: joining the pieces with newlines yields
the original source. -/
def join_newlines : List (List Char) → List Char
  | [] => []
  | [l] => l
  | l :: ls => l ++ '\n' :: join_newlines ls

/-!
Helper lemmas and claim theorems.
-/

/-- C2: for a `Document` whose content is a flat sequence of `Heading`s
with depths `[1, 2, 2, 1, 3]`, `fold_headings_transformation` returns a
`Document` with exactly two depth-1 headings: the first one's content
contains the two depth-2 headings as direct children, and the second
one's content contains the depth-3 heading. -/
theorem c2_fold_headings_depths :
    fold_headings_transformation
      (.Document Span.any
        [.Heading Span.any 1 [.Text Span.any "h1"] [],
         .Heading Span.any 2 [.Text Span.any "h2"] [],
         .Heading Span.any 2 [.Text Span.any "h3"] [],
         .Heading Span.any 1 [.Text Span.any "h4"] [],
         .Heading Span.any 3 [.Text Span.any "h5"] []]) {} =
    .ok (.Document Span.any
      [.Heading Span.any 1 [.Text Span.any "h1"]
        [.Heading Span.any 2 [.Text Span.any "h2"] [],
         .Heading Span.any 2 [.Text Span.any "h3"] []],
       .Heading Span.any 1 [.Text Span.any "h4"]
        [.Heading Span.any 3 [.Text Span.any "h5"] []]]) := rfl

/-- C3: for a `List` whose content is `ListItem`s with depths
`[1, 2, 2, 1]`, `fold_lists_transformation` returns a `List` of exactly
two depth-1 items: the first item's content gains one synthesized `List`
element holding the two depth-2 items, and the second depth-1 item is
returned unchanged. -/
theorem c3_fold_lists_depths :
    fold_lists_transformation
      (.List Span.any
        [.ListItem Span.any 1 .Unordered [.Text Span.any "a"],
         .ListItem Span.any 2 .Unordered [.Text Span.any "b"],
         .ListItem Span.any 2 .Unordered [.Text Span.any "c"],
         .ListItem Span.any 1 .Unordered [.Text Span.any "d"]]) {} =
    .ok (.List Span.any
      [.ListItem Span.any 1 .Unordered
        [.Text Span.any "a",
         .List Span.any
          [.ListItem Span.any 2 .Unordered [.Text Span.any "b"],
           .ListItem Span.any 2 .Unordered [.Text Span.any "c"]]],
       .ListItem Span.any 1 .Unordered [.Text Span.any "d"]]) := rfl

/-- C4, counterexample: a `ListItem` appearing outside any `List` (here:
directly inside a `Document`) does *not* make `fold_lists_transformation`
return an error — the tree is returned unchanged — so the first structural
violation named by the claim is not rejected by the code. -/
theorem c4_counterexample :
    fold_lists_transformation
      (.Document Span.any [.ListItem Span.any 1 .Unordered [.Text Span.any "a"]]) {} =
    .ok (.Document Span.any [.ListItem Span.any 1 .Unordered [.Text Span.any "a"]]) := rfl

/-- C10: `PartialEq for Position` is reflexive and symmetric but not
transitive: the all-zero `Position` compares equal to every `Position`
from either side, and there are positions `a = ⟨1,1,1⟩`, `c = ⟨2,2,2⟩`
with `a` equal to the all-zero position, the all-zero position equal to
`c`, but `a` not equal to `c`. -/
theorem c10_position_eq_wildcard :
    (∀ p : Position, Position.eq p p = true) ∧
    (∀ p q : Position, Position.eq p q = Position.eq q p) ∧
    Position.eq ⟨1, 1, 1⟩ Position.any_position = true ∧
    Position.eq Position.any_position ⟨2, 2, 2⟩ = true ∧
    Position.eq ⟨1, 1, 1⟩ ⟨2, 2, 2⟩ = false := by
  refine ⟨?_, ?_, by decide, by decide, by decide⟩
  · intro p
    unfold Position.eq
    split
    · rfl
    · simp
  · intro p q
    unfold Position.eq
    by_cases h : (q.offset = 0 ∧ q.line = 0 ∧ q.col = 0) ∨
        (p.offset = 0 ∧ p.line = 0 ∧ p.col = 0)
    · rw [if_pos h, if_pos (Or.symm h)]
    · rw [if_neg h, if_neg (fun hc => h (Or.symm hc))]
      simp [eq_comm]

/-- If a list contains a non-`ListItem`, the first loop of
`move_deeper_items` fails with the "non-listitems" error for some such
child. -/
theorem lowest_depth_scan_err (l : List Element) :
    ∀ acc : Nat, (∃ c ∈ l, is_list_item c = false) →
    ∃ c, c ∈ l ∧ is_list_item c = false ∧
      lowest_depth_scan l acc = .error
        { cause := "A list should not contain non-listitems."
          transformation_name := "fold_lists_transformation"
          position := c.get_position
          tree := c } := by
  induction l with
  | nil => intro acc hx; simp at hx
  | cons y rest ih =>
    intro acc hx
    cases y
    case ListItem pos depth kind content =>
      obtain ⟨c, hc, hcl⟩ := hx
      rcases List.mem_cons.mp hc with rfl | hc'
      · simp [is_list_item] at hcl
      · obtain ⟨c', hc', hcl', hrun⟩ := ih _ ⟨c, hc', hcl⟩
        exact ⟨c', List.mem_cons_of_mem _ hc', hcl', by
          simpa [lowest_depth_scan] using hrun⟩
    all_goals
      exact ⟨_, List.mem_cons_self _ _, rfl, by simp [lowest_depth_scan]⟩

/-- Scan step: a `Heading` deeper than the reference depth only changes
the result accumulator. -/
theorem mdh_scan_heading_gt (pos : Span) (depth : Nat) (caption content rest result : List Element)
    (chi cd : Nat) (h : depth > cd) :
    ∃ R, move_deeper_headings_scan (.Heading pos depth caption content :: rest) result chi cd
      = move_deeper_headings_scan rest R chi cd := by
  simp only [move_deeper_headings_scan, if_pos h]
  rcases hq : result.get? chi with _ | el
  · exact ⟨result, rfl⟩
  · cases el <;> exact ⟨_, rfl⟩

/-- Scan step: a `Heading` at most as deep as the reference depth becomes
the new reference. -/
theorem mdh_scan_heading_le (pos : Span) (depth : Nat) (caption content rest result : List Element)
    (chi cd : Nat) (h : ¬ depth > cd) :
    move_deeper_headings_scan (.Heading pos depth caption content :: rest) result chi cd
      = move_deeper_headings_scan rest (result ++ [.Heading pos depth caption content])
          result.length depth := by
  simp only [move_deeper_headings_scan, if_neg h]

/-- Scan step: a non-`Heading` child fails once the reference depth is
below `usize::MAX`. -/
theorem mdh_scan_nonheading_lt (y : Element) (rest result : List Element) (chi cd : Nat)
    (h : is_heading y = false) (hcd : cd < USIZE_MAX) :
    move_deeper_headings_scan (y :: rest) result chi cd = .error
      { cause := "a non-heading element was found after a heading. This should not happen."
        position := y.get_position
        transformation_name := "fold_headings_transformation"
        tree := y } := by
  cases y <;> simp_all [move_deeper_headings_scan, is_heading, hcd]

/-- Scan step: a non-`Heading` child passes through while no reference
heading has been seen. -/
theorem mdh_scan_nonheading_ge (y : Element) (rest result : List Element) (chi cd : Nat)
    (h : is_heading y = false) (hcd : ¬ cd < USIZE_MAX) :
    move_deeper_headings_scan (y :: rest) result chi cd
      = move_deeper_headings_scan rest (result ++ [y]) chi cd := by
  cases y <;> simp_all [move_deeper_headings_scan, is_heading, hcd]

/-- Once the reference depth is below `usize::MAX`, any non-`Heading`
remaining in the scanned list makes `move_deeper_headings` fail with the
"non-heading after a heading" error for some such child. -/
theorem mdh_scan_err (l : List Element) :
    ∀ (result : List Element) (chi cd : Nat), cd < USIZE_MAX →
      (∃ x ∈ l, is_heading x = false) →
    ∃ c, c ∈ l ∧ is_heading c = false ∧
      move_deeper_headings_scan l result chi cd = .error
        { cause := "a non-heading element was found after a heading. This should not happen."
          position := c.get_position
          transformation_name := "fold_headings_transformation"
          tree := c } := by
  induction l with
  | nil => intro _ _ _ _ hx; simp at hx
  | cons y rest ih =>
    intro result chi cd hcd hx
    by_cases hy : is_heading y = false
    · exact ⟨y, List.mem_cons_self _ _, hy, mdh_scan_nonheading_lt y rest result chi cd hy hcd⟩
    · obtain ⟨pos, depth, caption, content, rfl⟩ :
          ∃ pos depth caption content, y = .Heading pos depth caption content := by
        cases y <;> simp [is_heading] at hy ⊢
      have hx' : ∃ x ∈ rest, is_heading x = false := by
        obtain ⟨c, hc, hcl⟩ := hx
        rcases List.mem_cons.mp hc with rfl | hc'
        · simp [is_heading] at hcl
        · exact ⟨c, hc', hcl⟩
      by_cases hgt : depth > cd
      · obtain ⟨R, hR⟩ := mdh_scan_heading_gt pos depth caption content rest result chi cd hgt
        obtain ⟨c', hm, hh, hrun⟩ := ih R chi cd hcd hx'
        exact ⟨c', List.mem_cons_of_mem _ hm, hh, by rw [hR, hrun]⟩
      · obtain ⟨c', hm, hh, hrun⟩ := ih (result ++ [.Heading pos depth caption content])
          result.length depth (lt_of_le_of_lt (Nat.le_of_not_lt hgt) hcd) hx'
        exact ⟨c', List.mem_cons_of_mem _ hm, hh, by
          rw [mdh_scan_heading_le pos depth caption content rest result chi cd hgt, hrun]⟩

/-- A content list of the shape `a ++ Heading :: b` (the heading's depth
below `usize::MAX`) with a non-`Heading` somewhere in `b` makes the
`move_deeper_headings` scan fail, whatever the scan state. -/
theorem mdh_scan_err_after_heading (a : List Element) :
    ∀ (hp : Span) (hd : Nat) (hcap hcon : List Element) (b : List Element)
      (result : List Element) (chi cd : Nat), cd ≤ USIZE_MAX → hd < USIZE_MAX →
      (∃ x ∈ b, is_heading x = false) →
    ∃ c, c ∈ a ++ .Heading hp hd hcap hcon :: b ∧ is_heading c = false ∧
      move_deeper_headings_scan (a ++ .Heading hp hd hcap hcon :: b) result chi cd = .error
        { cause := "a non-heading element was found after a heading. This should not happen."
          position := c.get_position
          transformation_name := "fold_headings_transformation"
          tree := c } := by
  induction a with
  | nil =>
    intro hp hd hcap hcon b result chi cd hcd hhd hx
    simp only [List.nil_append]
    by_cases hgt : hd > cd
    · have hcd' : cd < USIZE_MAX := lt_trans hgt hhd
      obtain ⟨R, hR⟩ := mdh_scan_heading_gt hp hd hcap hcon b result chi cd hgt
      obtain ⟨c', hm, hh, hrun⟩ := mdh_scan_err b R chi cd hcd' hx
      exact ⟨c', List.mem_cons_of_mem _ hm, hh, by rw [hR, hrun]⟩
    · obtain ⟨c', hm, hh, hrun⟩ := mdh_scan_err b (result ++ [.Heading hp hd hcap hcon])
        result.length hd hhd hx
      exact ⟨c', List.mem_cons_of_mem _ hm, hh, by
        rw [mdh_scan_heading_le hp hd hcap hcon b result chi cd hgt, hrun]⟩
  | cons y a' ih =>
    intro hp hd hcap hcon b result chi cd hcd hhd hx
    simp only [List.cons_append]
    by_cases hy : is_heading y = false
    · by_cases hlt : cd < USIZE_MAX
      · exact ⟨y, List.mem_cons_self _ _, hy,
          mdh_scan_nonheading_lt y _ result chi cd hy hlt⟩
      · obtain ⟨c', hm, hh, hrun⟩ := ih hp hd hcap hcon b (result ++ [y]) chi cd hcd hhd hx
        exact ⟨c', List.mem_cons_of_mem _ hm, hh, by
          rw [mdh_scan_nonheading_ge y _ result chi cd hy hlt, hrun]⟩
    · obtain ⟨pos, depth, caption, content, rfl⟩ :
          ∃ pos depth caption content, y = .Heading pos depth caption content := by
        cases y <;> simp [is_heading] at hy ⊢
      by_cases hgt : depth > cd
      · obtain ⟨R, hR⟩ := mdh_scan_heading_gt pos depth caption content _ result chi cd hgt
        obtain ⟨c', hm, hh, hrun⟩ := ih hp hd hcap hcon b R chi cd hcd hhd hx
        exact ⟨c', List.mem_cons_of_mem _ hm, hh, by rw [hR, hrun]⟩
      · obtain ⟨c', hm, hh, hrun⟩ := ih hp hd hcap hcon b
          (result ++ [.Heading pos depth caption content]) result.length depth
          (le_trans (Nat.le_of_not_lt hgt) hcd) hhd hx
        exact ⟨c', List.mem_cons_of_mem _ hm, hh, by
          rw [mdh_scan_heading_le pos depth caption content _ result chi cd hgt, hrun]⟩

/-- C4, amended: the two structural violations the code actually rejects
are (i) a non-`ListItem` child inside a `List` — `fold_lists_transformation`
fails with cause "A list should not contain non-listitems." — and (ii) a
non-`Heading` element after a `Heading` in a folded content list —
`fold_headings_transformation` fails with the "non-heading element after a
heading" cause; in both cases the error carries the responsible pass's
name and the position and tree of an offending child.  (A `ListItem`
outside any `List` is *not* rejected, see the counterexample.) -/
theorem c4_amended :
    (∀ (pos : Span) (content : List Element) (settings : GeneralSettings),
      (∃ c ∈ content, is_list_item c = false) →
      ∃ e, fold_lists_transformation (.List pos content) settings = .error e ∧
        e.transformation_name = "fold_lists_transformation" ∧
        e.cause = "A list should not contain non-listitems." ∧
        ∃ c ∈ content, is_list_item c = false ∧ e.position = c.get_position ∧ e.tree = c) ∧
    (∀ (pos hp : Span) (hd : Nat) (hcap hcon a b : List Element) (settings : GeneralSettings),
      hd < USIZE_MAX → (∃ x ∈ b, is_heading x = false) →
      ∃ e, fold_headings_transformation (.Document pos (a ++ .Heading hp hd hcap hcon :: b))
          settings = .error e ∧
        e.transformation_name = "fold_headings_transformation" ∧
        e.cause = "a non-heading element was found after a heading. This should not happen." ∧
        ∃ c ∈ a ++ .Heading hp hd hcap hcon :: b, is_heading c = false ∧
          e.position = c.get_position ∧ e.tree = c) := by
  constructor
  · intro pos content settings hx
    obtain ⟨c, hc, hcl, hrun⟩ := lowest_depth_scan_err content USIZE_MAX hx
    refine ⟨{ cause := "A list should not contain non-listitems."
              transformation_name := "fold_lists_transformation"
              position := c.get_position
              tree := c }, ?_, rfl, rfl, c, hc, hcl, rfl, rfl⟩
    simp only [fold_lists_transformation, fold_lists_transformationF,
      recurse_inplace_template_s, move_deeper_items, hrun]
    rfl
  · intro pos hp hd hcap hcon a b settings hhd hx
    obtain ⟨c, hc, hcl, hrun⟩ :=
      mdh_scan_err_after_heading a hp hd hcap hcon b [] 0 USIZE_MAX le_rfl hhd hx
    refine ⟨{ cause := "a non-heading element was found after a heading. This should not happen."
              transformation_name := "fold_headings_transformation"
              position := c.get_position
              tree := c }, ?_, rfl, rfl, c, hc, hcl, rfl, rfl⟩
    simp only [fold_headings_transformation, fold_headings_transformationF,
      recurse_inplace_template_s, move_deeper_headings, hrun]
    rfl

/-- C4, witness: concrete instances of both amended parts — a `List`
containing a `Text` child, and a `Document` whose content is a depth-1
`Heading` followed by a `Text`. -/
theorem c4_witness :
    (∃ e, fold_lists_transformation (.List Span.any [.Text Span.any "x"]) {} = .error e ∧
      e.transformation_name = "fold_lists_transformation" ∧
      e.cause = "A list should not contain non-listitems." ∧
      ∃ c ∈ [Element.Text Span.any "x"], is_list_item c = false ∧
        e.position = c.get_position ∧ e.tree = c) ∧
    (∃ e, fold_headings_transformation
        (.Document Span.any
          ([] ++ .Heading Span.any 1 [] [] :: [.Text Span.any "y"])) {} = .error e ∧
      e.transformation_name = "fold_headings_transformation" ∧
      e.cause = "a non-heading element was found after a heading. This should not happen." ∧
      ∃ c ∈ [] ++ Element.Heading Span.any 1 [] [] :: [Element.Text Span.any "y"],
        is_heading c = false ∧ e.position = c.get_position ∧ e.tree = c) :=
  ⟨c4_amended.1 Span.any [.Text Span.any "x"] {}
      ⟨.Text Span.any "x", List.mem_cons_self _ _, rfl⟩,
   c4_amended.2 Span.any Span.any 1 [] [] [] [.Text Span.any "y"] {}
      (by norm_num [USIZE_MAX])
      ⟨.Text Span.any "y", List.mem_cons_self _ _, rfl⟩⟩

/-- Inversion of a successful `Except` bind. -/
theorem except_bind_ok {ε α β : Type} (x : Except ε α) (f : α → Except ε β) (b : β) :
    (x >>= f) = .ok b ↔ ∃ a, x = .ok a ∧ f a = .ok b := by
  cases x <;> simp [Bind.bind, Except.bind]

/-- The settings-generic engine preserves the head constructor as far as
`arg_name` is concerned: a successful result of
`recurse_inplace_template_s` has the same `arg_name` as its input. -/
theorem recurse_inplace_template_s_arg_name {S : Type} (func : TFuncInplaceS S)
    (root : Element) (settings : S) (cf : ContentFuncS S) (y : Element) :
    recurse_inplace_template_s func root settings cf = .ok y →
      arg_name y = arg_name root := by
  cases root <;>
    simp only [recurse_inplace_template_s, except_bind_ok, Except.ok.injEq] <;>
    first
      | (rintro rfl; rfl)
      | (rintro ⟨a, -, rfl⟩; rfl)
      | (rintro ⟨a, -, b, -, rfl⟩; rfl)
      | (rintro ⟨a, -, b, -, c, -, rfl⟩; rfl)

/-- `enumerate_anon_argsF` preserves `arg_name`: in particular a
`TemplateArgument` keeps its (already assigned) name when the pass
recurses into it, and a non-argument never becomes one. -/
theorem enumerate_anon_argsF_arg_name (n : Nat) (x : Element) (s : GeneralSettings)
    (y : Element) : enumerate_anon_argsF n x s = .ok y → arg_name y = arg_name x := by
  cases n with
  | zero => intro h; simp [enumerate_anon_argsF] at h
  | succ n =>
    intro h
    simp only [enumerate_anon_argsF, recurse_inplace_s] at h
    cases x <;>
      simpa using recurse_inplace_template_s_arg_name _ _ _ _ _ h

/-- A successful `apply_func_drain_s` maps `arg_name` pointwise when the
applied function preserves it. -/
theorem apply_func_drain_s_arg_names {S : Type} (f : TFuncInplaceS S)
    (hf : ∀ x s y, f x s = .ok y → arg_name y = arg_name x) (l : List Element) :
    ∀ (s : S) (l2 : List Element), apply_func_drain_s f l s = .ok l2 →
      l2.map arg_name = l.map arg_name := by
  induction l with
  | nil => intro s l2 h; simp only [apply_func_drain_s, Except.ok.injEq] at h; subst h; rfl
  | cons child rest ih =>
    intro s l2 h
    simp only [apply_func_drain_s, except_bind_ok, Except.ok.injEq] at h
    obtain ⟨r, hr, rs, hrs, rfl⟩ := h
    simp [hf child s r hr, ih s rs hrs]

/-- The loop of `enumerate_anon_args` assigns exactly the names of
`enum_names_spec`. -/
theorem enum_args_go_names (l : List Element) :
    ∀ counter : Nat, (enum_args_go l counter).map arg_name = enum_names_spec l counter := by
  induction l with
  | nil => intro counter; rfl
  | cons child rest ih =>
    intro counter
    cases child <;> simp [enum_args_go, enum_names_spec, arg_name, ih]
    case TemplateArgument pos name value =>
      by_cases hw : is_whitespace name = true <;> simp [hw, ih, arg_name]

/-- C7: for every `Template`, `enumerate_anon_args` renames, in order,
exactly those `TemplateArgument` children whose trimmed name is empty to
the successive 1-based integers "1", "2", ... of a per-template counter
(`enum_names_spec`), leaving arguments with non-whitespace names unchanged
and without consuming a counter value; in particular a `Template` with
arguments named `["", "foo", ""]` becomes `["1", "foo", "2"]`. -/
theorem c7_enumerate_anon_args :
    (∀ (fuel : Nat) (pos : Span) (nm content : List Element) (s : GeneralSettings)
        (r : Element),
      enumerate_anon_argsF fuel (.Template pos nm content) s = .ok r →
      ∃ nm2 content2, r = .Template pos nm2 content2 ∧
        content2.map arg_name = enum_names_spec content 1) ∧
    enumerate_anon_args
      (.Template Span.any []
        [.TemplateArgument Span.any "" [], .TemplateArgument Span.any "foo" [],
         .TemplateArgument Span.any "" []]) {} =
    .ok (.Template Span.any []
      [.TemplateArgument Span.any "1" [], .TemplateArgument Span.any "foo" [],
       .TemplateArgument Span.any "2" []]) := by
  refine ⟨?_, rfl⟩
  intro fuel pos nm content s r h
  cases fuel with
  | zero => simp [enumerate_anon_argsF] at h
  | succ n =>
    simp only [enumerate_anon_argsF, recurse_inplace_s, recurse_inplace_template_s,
      except_bind_ok, Except.ok.injEq] at h
    obtain ⟨nm2, -, content2, hcontent, rfl⟩ := h
    refine ⟨nm2, content2, rfl, ?_⟩
    rw [apply_func_drain_s_arg_names _ (fun x s y => enumerate_anon_argsF_arg_name n x s y)
      _ s content2 hcontent, enum_args_go_names]

/-- C7, witness: the universal part applied to the `["", "foo", ""]`
template at the wrapper's fuel. -/
theorem c7_witness :
    ∃ nm2 content2,
      (Element.Template Span.any []
        [.TemplateArgument Span.any "1" [], .TemplateArgument Span.any "foo" [],
         .TemplateArgument Span.any "2" []]) = .Template Span.any nm2 content2 ∧
      content2.map arg_name =
        enum_names_spec
          [.TemplateArgument Span.any "" [], .TemplateArgument Span.any "foo" [],
           .TemplateArgument Span.any "" []] 1 :=
  c7_enumerate_anon_args.1
    (element_size
      (.Template Span.any []
        [.TemplateArgument Span.any "" [], .TemplateArgument Span.any "foo" [],
         .TemplateArgument Span.any "" []]) + 1)
    Span.any []
    [.TemplateArgument Span.any "" [], .TemplateArgument Span.any "foo" [],
     .TemplateArgument Span.any "" []] {}
    (.Template Span.any []
      [.TemplateArgument Span.any "1" [], .TemplateArgument Span.any "foo" [],
       .TemplateArgument Span.any "2" []])
    rfl

/-- Scan step for `squash_text`: a non-`Text` child is pushed through. -/
theorem squash_text_scan_cons_other (child : Element)
    (h : ∀ sp st, child ≠ .Text sp st) (rest res : List Element) :
    squash_text_scan (child :: rest) res = squash_text_scan rest (res ++ [child]) := by
  cases child <;> simp_all [squash_text_scan]

/-- Scan step for `squash_text`: a `Text` child after a non-`Text` (or
empty) accumulator is pushed through. -/
theorem squash_text_scan_cons_text (pos : Span) (text : String) (rest res : List Element)
    (h : ∀ sp st, res.getLast? ≠ some (.Text sp st)) :
    squash_text_scan (.Text pos text :: rest) res =
      squash_text_scan rest (res ++ [.Text pos text]) := by
  simp only [squash_text_scan]

/-- Scan step for `squash_text`: a `Text` child after a `Text` accumulator
end is merged. -/
theorem squash_text_scan_cons_text_merge (pos : Span) (text : String)
    (rest res0 : List Element) (sp : Span) (st : String) :
    squash_text_scan (.Text pos text :: rest) (res0 ++ [.Text sp st]) =
      squash_text_scan rest (res0 ++
        [.Text { sp with end_ := pos.end_ }
          (if is_whitespace text then st ++ " " else st ++ text)]) := by
  simp [squash_text_scan, List.getLast?_concat, List.dropLast_concat]

/-- The `squash_text` loop agrees with the lookahead specification
`collapse_text_spec`: part one for accumulators not ending in a `Text`,
part two for accumulators ending in a `Text` node. -/
theorem squash_text_scan_spec (l : List Element) :
    (∀ res : List Element, (∀ sp st, res.getLast? ≠ some (.Text sp st)) →
      squash_text_scan l res = res ++ collapse_text_spec l) ∧
    (∀ (res0 : List Element) (sp : Span) (st : String),
      squash_text_scan l (res0 ++ [.Text sp st]) =
        res0 ++ collapse_text_spec (.Text sp st :: l)) := by
  induction l with
  | nil =>
    constructor
    · intro res _; simp [squash_text_scan, collapse_text_spec]
    · intro res0 sp st; simp [squash_text_scan, collapse_text_spec]
  | cons child rest ih =>
    constructor
    · intro res h
      cases child
      case Text pos text =>
        rw [squash_text_scan_cons_text pos text rest res h, ih.2 res pos text]
      all_goals
        rw [squash_text_scan_cons_other _ (by intro sp st hne; cases hne) rest res,
          ih.1 _ (by simp [List.getLast?_concat])]
        simp [collapse_text_spec]
    · intro res0 sp st
      cases child
      case Text pos text =>
        rw [squash_text_scan_cons_text_merge pos text rest res0 sp st, ih.2 res0 _ _]
        simp only [collapse_text_spec]
      all_goals
        rw [squash_text_scan_cons_other _ (by intro sp' st' hne; cases hne) rest _,
          ih.1 _ (by simp [List.getLast?_concat])]
        simp [collapse_text_spec]

/-- C6: within any content list, the `collapse_consecutive_text` loop
merges every `Text` node adjacent to a preceding `Text` node into it — a
single space is appended if the incoming text is whitespace-only,
otherwise the incoming text verbatim, and the merged span's end is
extended to the incoming node's end (`collapse_text_spec`); in particular
the three `Text` nodes "a", "  ", "b" collapse to the single `Text` node
"a b". -/
theorem c6_collapse_consecutive_text :
    (∀ l : List Element, squash_text_scan l [] = collapse_text_spec l) ∧
    collapse_consecutive_text
      (.Paragraph { start := ⟨0, 1, 1⟩, end_ := ⟨4, 1, 5⟩ }
        [.Text { start := ⟨0, 1, 1⟩, end_ := ⟨1, 1, 2⟩ } "a",
         .Text { start := ⟨1, 1, 2⟩, end_ := ⟨3, 1, 4⟩ } "  ",
         .Text { start := ⟨3, 1, 4⟩, end_ := ⟨4, 1, 5⟩ } "b"]) {} =
    .ok (.Paragraph { start := ⟨0, 1, 1⟩, end_ := ⟨4, 1, 5⟩ }
      [.Text { start := ⟨0, 1, 1⟩, end_ := ⟨4, 1, 5⟩ } "a b"]) := by
  refine ⟨?_, rfl⟩
  intro l
  simpa using (squash_text_scan_spec l).1 [] (by simp)

/-- Dropping an empty paragraph from the head of the specification's
input changes nothing. -/
theorem collapse_paragraphs_spec_empty_head (pos : Span) (rest : List Element) :
    collapse_paragraphs_spec (.Paragraph pos [] :: rest) = collapse_paragraphs_spec rest := by
  rcases rest with _ | ⟨y, rest'⟩
  · simp [collapse_paragraphs_spec]
  · cases y <;> simp [collapse_paragraphs_spec]

/-- Scan step for `squash_empty_paragraphs`: a non-`Paragraph` child is
pushed through and clears the flag. -/
theorem squash_par_scan_cons_other (child : Element)
    (h : ∀ sp sc, child ≠ .Paragraph sp sc) (rest res : List Element) (flag : Bool) :
    squash_paragraphs_scan (child :: rest) res flag =
      squash_paragraphs_scan rest (res ++ [child]) false := by
  cases child <;> simp_all [squash_paragraphs_scan]

/-- Scan step: an empty paragraph is dropped and sets the flag. -/
theorem squash_par_scan_cons_empty (pos : Span) (rest res : List Element) (flag : Bool) :
    squash_paragraphs_scan (.Paragraph pos [] :: rest) res flag =
      squash_paragraphs_scan rest res true := by
  simp [squash_paragraphs_scan]

/-- Scan step: a non-empty paragraph right after a dropped empty one is
kept as a new entry. -/
theorem squash_par_scan_cons_nonempty_true (pos : Span) (c : Element) (cs rest res : List Element) :
    squash_paragraphs_scan (.Paragraph pos (c :: cs) :: rest) res true =
      squash_paragraphs_scan rest (res ++ [.Paragraph pos (c :: cs)]) false := by
  simp [squash_paragraphs_scan]

/-- Scan step: a non-empty paragraph with no paragraph at the end of the
accumulator is kept as a new entry. -/
theorem squash_par_scan_cons_nonempty_nopar (pos : Span) (c : Element) (cs rest res : List Element)
    (h : ∀ sp sc, res.getLast? ≠ some (.Paragraph sp sc)) :
    squash_paragraphs_scan (.Paragraph pos (c :: cs) :: rest) res false =
      squash_paragraphs_scan rest (res ++ [.Paragraph pos (c :: cs)]) false := by
  simp only [squash_paragraphs_scan, List.isEmpty_cons, Bool.false_eq_true, if_false,
    if_neg (by simp : ¬ false = true)]

/-- Scan step: a non-empty paragraph after a kept paragraph is merged into
it with a single-space separator and the span end extended. -/
theorem squash_par_scan_cons_merge (pos : Span) (c : Element) (cs rest res0 : List Element)
    (sp : Span) (sc : List Element) :
    squash_paragraphs_scan (.Paragraph pos (c :: cs) :: rest)
        (res0 ++ [.Paragraph sp sc]) false =
      squash_paragraphs_scan rest
        (res0 ++ [.Paragraph { sp with end_ := pos.end_ }
          (sc ++ [.Text sp " "] ++ (c :: cs))]) false := by
  simp [squash_paragraphs_scan, List.getLast?_concat, List.dropLast_concat]

/-- The `squash_empty_paragraphs` loop agrees with the lookahead
specification `collapse_paragraphs_spec`: part one for accumulators not
ending in a paragraph with the flag clear, part two for the flag set,
part three for accumulators ending in a kept (non-empty) paragraph. -/
theorem squash_paragraphs_scan_spec (l : List Element) :
    (∀ res : List Element, (∀ sp sc, res.getLast? ≠ some (.Paragraph sp sc)) →
      squash_paragraphs_scan l res false = res ++ collapse_paragraphs_spec l) ∧
    (∀ res : List Element,
      squash_paragraphs_scan l res true = res ++ collapse_paragraphs_spec l) ∧
    (∀ (res0 : List Element) (sp : Span) (sc : List Element), sc ≠ [] →
      squash_paragraphs_scan l (res0 ++ [.Paragraph sp sc]) false =
        res0 ++ collapse_paragraphs_spec (.Paragraph sp sc :: l)) := by
  induction l with
  | nil =>
    refine ⟨fun res _ => by simp [squash_paragraphs_scan, collapse_paragraphs_spec],
      fun res => by simp [squash_paragraphs_scan, collapse_paragraphs_spec],
      fun res0 sp sc hsc => by
        have hscF : sc.isEmpty = false := by
          cases sc with | nil => exact absurd rfl hsc | cons _ _ => rfl
        simp [squash_paragraphs_scan, collapse_paragraphs_spec, hscF]⟩
  | cons child rest ih =>
    obtain ⟨ihA, ihB, ihC⟩ := ih
    refine ⟨?_, ?_, ?_⟩
    · intro res h
      cases child
      case Paragraph pos content =>
        cases content with
        | nil =>
          rw [squash_par_scan_cons_empty, ihB res, collapse_paragraphs_spec_empty_head]
        | cons c cs =>
          rw [squash_par_scan_cons_nonempty_nopar pos c cs rest res h,
            ihC res pos (c :: cs) (List.cons_ne_nil c cs)]
      all_goals
        rw [squash_par_scan_cons_other _ (by intro sp sc hne; cases hne) rest res _,
          ihA _ (by simp [List.getLast?_concat])]
        simp [collapse_paragraphs_spec]
    · intro res
      cases child
      case Paragraph pos content =>
        cases content with
        | nil =>
          rw [squash_par_scan_cons_empty, ihB res, collapse_paragraphs_spec_empty_head]
        | cons c cs =>
          rw [squash_par_scan_cons_nonempty_true pos c cs rest res,
            ihC res pos (c :: cs) (List.cons_ne_nil c cs)]
      all_goals
        rw [squash_par_scan_cons_other _ (by intro sp sc hne; cases hne) rest res _,
          ihA _ (by simp [List.getLast?_concat])]
        simp [collapse_paragraphs_spec]
    · intro res0 sp sc hsc
      have hscF : sc.isEmpty = false := by
        cases sc with | nil => exact absurd rfl hsc | cons _ _ => rfl
      cases child
      case Paragraph pos content =>
        cases content with
        | nil =>
          rw [squash_par_scan_cons_empty,
            ihB (res0 ++ [Element.Paragraph sp sc])]
          simp [collapse_paragraphs_spec, hscF, collapse_paragraphs_spec_empty_head]
        | cons c cs =>
          rw [squash_par_scan_cons_merge pos c cs rest res0 sp sc,
            ihC res0 { sp with end_ := pos.end_ } (sc ++ [Element.Text sp " "] ++ (c :: cs))
              (by simp)]
          simp [collapse_paragraphs_spec, hscF]
      all_goals
        rw [squash_par_scan_cons_other _ (by intro sp' sc' hne; cases hne) rest _ _,
          ihA _ (by simp [List.getLast?_concat])]
        simp [collapse_paragraphs_spec, hscF]

/-- C5: within any content list, the `collapse_paragraphs` loop drops
every empty `Paragraph`; a non-empty `Paragraph` immediately following a
kept non-empty `Paragraph` (no intervening empty paragraph) is merged into
it by appending a single-space `Text` separator, then the follower's
content, extending the previous span's end to the follower's end; a
paragraph following an empty one is kept as a separate entry
(`collapse_paragraphs_spec`).  The two concrete conjuncts exercise the
merge and the empty-separation on the full pass. -/
theorem c5_collapse_paragraphs :
    (∀ l : List Element,
      squash_paragraphs_scan l [] false = collapse_paragraphs_spec l) ∧
    collapse_paragraphs
      (.Document { start := ⟨0, 1, 1⟩, end_ := ⟨3, 2, 2⟩ }
        [.Paragraph { start := ⟨0, 1, 1⟩, end_ := ⟨1, 1, 2⟩ }
          [.Text { start := ⟨0, 1, 1⟩, end_ := ⟨1, 1, 2⟩ } "x"],
         .Paragraph { start := ⟨2, 2, 1⟩, end_ := ⟨3, 2, 2⟩ }
          [.Text { start := ⟨2, 2, 1⟩, end_ := ⟨3, 2, 2⟩ } "y"]]) {} =
    .ok (.Document { start := ⟨0, 1, 1⟩, end_ := ⟨3, 2, 2⟩ }
      [.Paragraph { start := ⟨0, 1, 1⟩, end_ := ⟨3, 2, 2⟩ }
        [.Text { start := ⟨0, 1, 1⟩, end_ := ⟨1, 1, 2⟩ } "x",
         .Text { start := ⟨0, 1, 1⟩, end_ := ⟨1, 1, 2⟩ } " ",
         .Text { start := ⟨2, 2, 1⟩, end_ := ⟨3, 2, 2⟩ } "y"]]) ∧
    collapse_paragraphs
      (.Document { start := ⟨0, 1, 1⟩, end_ := ⟨5, 3, 2⟩ }
        [.Paragraph { start := ⟨0, 1, 1⟩, end_ := ⟨1, 1, 2⟩ }
          [.Text { start := ⟨0, 1, 1⟩, end_ := ⟨1, 1, 2⟩ } "x"],
         .Paragraph { start := ⟨2, 2, 1⟩, end_ := ⟨2, 2, 1⟩ } [],
         .Paragraph { start := ⟨4, 3, 1⟩, end_ := ⟨5, 3, 2⟩ }
          [.Text { start := ⟨4, 3, 1⟩, end_ := ⟨5, 3, 2⟩ } "y"]]) {} =
    .ok (.Document { start := ⟨0, 1, 1⟩, end_ := ⟨5, 3, 2⟩ }
      [.Paragraph { start := ⟨0, 1, 1⟩, end_ := ⟨1, 1, 2⟩ }
        [.Text { start := ⟨0, 1, 1⟩, end_ := ⟨1, 1, 2⟩ } "x"],
       .Paragraph { start := ⟨4, 3, 1⟩, end_ := ⟨5, 3, 2⟩ }
        [.Text { start := ⟨4, 3, 1⟩, end_ := ⟨5, 3, 2⟩ } "y"]]) := by
  refine ⟨?_, rfl, rfl⟩
  intro l
  simpa using (squash_paragraphs_scan_spec l).1 [] (by simp)

/-- Byte index 0 is always a character boundary. -/
theorem chars_of_bytes_zero (l : List Char) : chars_of_bytes l 0 = some 0 := by
  cases l <;> rfl

/-- A byte count with a char-boundary prefix is at most the byte length. -/
theorem chars_of_bytes_le (l : List Char) :
    ∀ n, (chars_of_bytes l n).isSome = true → n ≤ utf8_len l := by
  induction l with
  | nil =>
    intro n h
    cases n with
    | zero => exact Nat.le_refl 0
    | succ m => simp [chars_of_bytes] at h
  | cons c rest ih =>
    intro n h
    cases n with
    | zero => exact Nat.zero_le _
    | succ m =>
      simp only [chars_of_bytes] at h
      by_cases hc : c.utf8Size ≤ m + 1
      · rw [if_pos hc] at h
        simp only [Option.isSome_map'] at h
        have := ih _ h
        simp only [utf8_len]
        omega
      · rw [if_neg hc] at h
        simp at h

/-- A boundary check within the left part of an append only depends on
the left part. -/
theorem chars_of_bytes_append_left (a b : List Char) :
    ∀ n, n ≤ utf8_len a →
      (chars_of_bytes (a ++ b) n).isSome = (chars_of_bytes a n).isSome := by
  induction a with
  | nil =>
    intro n hn
    have : n = 0 := Nat.le_zero.mp (by simpa [utf8_len] using hn)
    subst this
    simp [chars_of_bytes_zero]
  | cons c a' ih =>
    intro n hn
    cases n with
    | zero => simp [chars_of_bytes_zero]
    | succ m =>
      simp only [List.cons_append, chars_of_bytes]
      by_cases hc : c.utf8Size ≤ m + 1
      · rw [if_pos hc, if_pos hc]
        simp only [Option.isSome_map']
        exact ih _ (by simp only [utf8_len] at hn; omega)
      · rw [if_neg hc, if_neg hc]

/-- A boundary check past the left part of an append only depends on the
right part. -/
theorem chars_of_bytes_append_right (a b : List Char) :
    ∀ m, (chars_of_bytes (a ++ b) (utf8_len a + m)).isSome
      = (chars_of_bytes b m).isSome := by
  induction a with
  | nil => intro m; simp [utf8_len]
  | cons c a' ih =>
    intro m
    have hpos : 0 < c.utf8Size := Char.utf8Size_pos c
    obtain ⟨k, hk⟩ : ∃ k, utf8_len (c :: a') + m = k + 1 := by
      simp only [utf8_len]; exact ⟨c.utf8Size + utf8_len a' + m - 1, by omega⟩
    rw [hk]
    simp only [List.cons_append, chars_of_bytes]
    rw [if_pos (by simp only [utf8_len] at hk; omega)]
    simp only [Option.isSome_map']
    have hsub : k + 1 - c.utf8Size = utf8_len a' + m := by
      simp only [utf8_len] at hk; omega
    rw [hsub]
    simpa using ih m

/-- `split_newlines` never returns an empty list of pieces. -/
theorem split_newlines_ne_nil (source : List Char) : split_newlines source ≠ [] := by
  cases source with
  | nil => simp [split_newlines]
  | cons c rest =>
    simp only [split_newlines]
    by_cases hc : c = '\n'
    · simp [hc]
    · rw [if_neg hc]
      rcases h : split_newlines rest with _ | ⟨l, ls⟩ <;> simp

/-- Joining the pieces of `split_newlines` gives back the source. -/
theorem join_split_newlines (source : List Char) :
    join_newlines (split_newlines source) = source := by
  induction source with
  | nil => rfl
  | cons c rest ih =>
    simp only [split_newlines]
    by_cases hc : c = '\n'
    · rw [if_pos hc]
      rcases h : split_newlines rest with _ | ⟨l, ls⟩
      · exact absurd h (split_newlines_ne_nil rest)
      · rw [h] at ih
        subst hc
        simp [join_newlines, ih]
    · rw [if_neg hc]
      rcases h : split_newlines rest with _ | ⟨l, ls⟩
      · exact absurd h (split_newlines_ne_nil rest)
      · rw [h] at ih
        rcases ls with _ | ⟨l2, ls'⟩
        · simpa [join_newlines] using congrArg (c :: ·) ih
        · simpa [join_newlines] using congrArg (c :: ·) ih

/-- `utf8_len` is additive over append. -/
theorem utf8_len_append (a b : List Char) : utf8_len (a ++ b) = utf8_len a + utf8_len b := by
  induction a with
  | nil => simp [utf8_len]
  | cons c a' ih => simp [utf8_len, ih]; omega

/-- When no indexed line contains the offset, `Position::new` falls back
to `line = slocs.len() + 1`, `col = 0`. -/
theorem pos_new_go_fallback (slocs : List SourceLine) :
    ∀ (offset total i : Nat),
      (∀ sl ∈ slocs, ¬(sl.start ≤ offset ∧ offset < sl.end_)) →
      Position.new_go offset total i slocs =
        some { offset := offset, line := total + 1, col := 0 } := by
  induction slocs with
  | nil => intro offset total i _; rfl
  | cons sl rest ih =>
    intro offset total i h
    simp only [Position.new_go]
    rw [if_neg (h sl (List.mem_cons_self _ _))]
    exact ih offset total (i + 1) (fun s hs => h s (List.mem_cons_of_mem _ hs))

/-- If the byte offset is a character boundary of the joined pieces, the
`Position::new` scan over the index built from those pieces succeeds. -/
theorem pos_new_go_some (pieces : List (List Char)) :
    ∀ (pos offset total i : Nat), pos ≤ offset →
      is_char_boundary (join_newlines pieces) (offset - pos) = true →
      ∃ p, Position.new_go offset total i (get_source_lines_go pos pieces) = some p := by
  induction pieces with
  | nil => intro pos offset total i _ _; exact ⟨_, rfl⟩
  | cons line rest ih =>
    intro pos offset total i hpo hb
    simp only [get_source_lines_go, Position.new_go]
    by_cases hin : pos ≤ offset ∧ offset < pos + utf8_len line + 1
    · rw [if_pos hin]
      have hn : offset - pos ≤ utf8_len line := by omega
      have hsome : (chars_of_bytes line (offset - pos)).isSome = true := by
        rcases rest with _ | ⟨r, rs⟩
        · simpa [is_char_boundary, join_newlines] using hb
        · rw [is_char_boundary, show join_newlines (line :: r :: rs)
              = line ++ '\n' :: join_newlines (r :: rs) from rfl,
            chars_of_bytes_append_left line _ _ hn] at hb
          exact hb
      obtain ⟨k, hk⟩ := Option.isSome_iff_exists.mp hsome
      exact ⟨_, by rw [hk]; rfl⟩
    · rw [if_neg hin]
      have hge : pos + utf8_len line + 1 ≤ offset := by omega
      rcases rest with _ | ⟨r, rs⟩
      · exact ⟨_, rfl⟩
      · apply ih (pos + utf8_len line + 1) offset total (i + 1) hge
        have hsplit : join_newlines (line :: r :: rs)
            = (line ++ ['\n']) ++ join_newlines (r :: rs) := by
          simp [join_newlines]
        have hlen : utf8_len (line ++ ['\n']) = utf8_len line + 1 := by
          rw [utf8_len_append]; rfl
        have harith : offset - pos
            = utf8_len (line ++ ['\n']) + (offset - (pos + utf8_len line + 1)) := by
          rw [hlen]; omega
        rw [is_char_boundary, hsplit, harith, chars_of_bytes_append_right] at hb
        exact hb

/-- C8, counterexample: for the one-character source "é" (two UTF-8
bytes) and byte offset 1, `Position::new` does not return a position —
the byte-range slice `&content[0..1]` falls inside the character, which
panics in Rust (modelled as `none`) — refuting "for every source text and
every byte offset ... returns some Position without error". -/
theorem c8_counterexample :
    Position.new 1 (get_source_lines ['é']) = none := rfl

/-- C8, amended: for source "ab\ncd", offset 4 maps to line 2, column 2;
an offset contained in no indexed line yields `line = index.len() + 1`,
`col = 0`; and for every byte offset that is a character boundary of the
source, `Position::new` returns some position.  An offset inside a
multi-byte character makes the Rust code panic (see the counterexample),
so the claim's "every byte offset" must be restricted to character
boundaries. -/
theorem c8_amended :
    Position.new 4 (get_source_lines ['a', 'b', '\n', 'c', 'd']) =
      some { offset := 4, line := 2, col := 2 } ∧
    (∀ (source : List Char) (offset : Nat),
      (∀ sl ∈ get_source_lines source, ¬(sl.start ≤ offset ∧ offset < sl.end_)) →
      Position.new offset (get_source_lines source) =
        some { offset := offset, line := (get_source_lines source).length + 1, col := 0 }) ∧
    (∀ (source : List Char) (offset : Nat),
      is_char_boundary source offset = true →
      ∃ p, Position.new offset (get_source_lines source) = some p) := by
  refine ⟨rfl, ?_, ?_⟩
  · intro source offset h
    exact pos_new_go_fallback (get_source_lines source) offset _ 0 h
  · intro source offset hb
    apply pos_new_go_some (split_newlines source) 0 offset _ 0 (Nat.zero_le _)
    rw [join_split_newlines, Nat.sub_zero]
    exact hb

/-- C8, witness: the fallback conjunct at source "a", offset 5, and the
boundary conjunct at source "ab\ncd", offset 4. -/
theorem c8_witness :
    Position.new 5 (get_source_lines ['a']) =
      some { offset := 5, line := (get_source_lines ['a']).length + 1, col := 0 } ∧
    ∃ p, Position.new 4 (get_source_lines ['a', 'b', '\n', 'c', 'd']) = some p :=
  ⟨c8_amended.2.1 ['a'] 5
      (by
        intro sl hsl
        have h1 : sl = { start := 0, content := ['a'], end_ := 2 } :=
          List.mem_singleton.mp hsl
        subst h1
        simp),
   c8_amended.2.2 ['a', 'b', '\n', 'c', 'd'] 4 rfl⟩

/-- Every element has positive size. -/
theorem element_size_pos (e : Element) : 1 ≤ element_size e := by
  cases e <;> simp [element_size]

/-- A member's size is bounded by its list's size. -/
theorem element_size_le_of_mem {x : Element} :
    ∀ {l : List Element}, x ∈ l → element_size x ≤ element_size_list l := by
  intro l hl
  induction l with
  | nil => cases hl
  | cons y ys ih =>
    rcases List.mem_cons.mp hl with rfl | h
    · simp only [element_size_list]; omega
    · have := ih h
      simp only [element_size_list]
      omega

/-- A member list's size is bounded by its list-of-lists' size. -/
theorem element_size_list_le_of_mem {o : List Element} :
    ∀ {os : List (List Element)}, o ∈ os → element_size_list o ≤ element_size_list_list os := by
  intro os ho
  induction os with
  | nil => cases ho
  | cons y ys ih =>
    rcases List.mem_cons.mp ho with rfl | h
    · simp only [element_size_list_list]; omega
    · have := ih h
      simp only [element_size_list_list]
      omega

/-- Bind on a successful `Except` computation. -/
@[simp]
theorem except_ok_bind {ε α β : Type} (a : α) (f : α → Except ε β) :
    (Except.ok a >>= f : Except ε β) = f a := rfl

/-- If every element of the list runs to success restoring the path, so
does the element loop of `run_vec`. -/
theorem trav_run_elems_ok {σ : Type} (t : Traversion σ) (content : List Element)
    (hrun : ∀ x ∈ content, ∀ (s : σ) (path : List Element),
      ∃ s2, Traversion.run t s path x = .ok (s2, path)) :
    ∀ s path, ∃ s2, Traversion.run_elems t s path content = .ok (s2, path) := by
  induction content with
  | nil => intro s path; exact ⟨s, by simp [Traversion.run_elems]⟩
  | cons x xs ih =>
    intro s path
    obtain ⟨s1, h1⟩ := hrun x (List.mem_cons_self _ _) s path
    obtain ⟨s2, h2⟩ := ih (fun y hy => hrun y (List.mem_cons_of_mem _ hy)) s1 path
    exact ⟨s2, by simp [Traversion.run_elems, h1, h2]⟩

/-- If `work_vec` always continues and every element runs to success
restoring the path, `run_vec` succeeds and restores the path. -/
theorem trav_run_vec_ok {σ : Type} (t : Traversion σ)
    (hwv : ∀ (s : σ) (l : List Element), ∃ s2, t.work_vec s l = .ok (s2, true))
    (content : List Element)
    (hrun : ∀ x ∈ content, ∀ (s : σ) (path : List Element),
      ∃ s2, Traversion.run t s path x = .ok (s2, path)) :
    ∀ s path, ∃ s2, Traversion.run_vec t s path content = .ok (s2, path) := by
  intro s path
  obtain ⟨s1, hv⟩ := hwv s content
  obtain ⟨s2, h2⟩ := trav_run_elems_ok t content hrun s1 path
  exact ⟨s2, by simp [Traversion.run_vec, hv, h2]⟩

/-- The options loop of `run` for `InternalReference`, when every option
list runs to success restoring the path. -/
theorem trav_run_vec_options_ok {σ : Type} (t : Traversion σ)
    (options : List (List Element))
    (hvec : ∀ o ∈ options, ∀ (s : σ) (path : List Element),
      ∃ s2, Traversion.run_vec t s path o = .ok (s2, path)) :
    ∀ s path, ∃ s2, Traversion.run_vec_options t s path options = .ok (s2, path) := by
  induction options with
  | nil => intro s path; exact ⟨s, by simp [Traversion.run_vec_options]⟩
  | cons o os ih =>
    intro s path
    obtain ⟨s1, h1⟩ := hvec o (List.mem_cons_self _ _) s path
    obtain ⟨s2, h2⟩ := ih (fun y hy => hvec y (List.mem_cons_of_mem _ hy)) s1 path
    exact ⟨s2, by simp [Traversion.run_vec_options, h1, h2]⟩

/-- When both hooks always return `true` (no pruning, no error),
`Traversion::run` succeeds and the path after the call equals the path
before it. -/
theorem trav_run_ok {σ : Type} (t : Traversion σ)
    (hw : ∀ (s : σ) (e : Element), ∃ s2, t.work s e = .ok (s2, true))
    (hwv : ∀ (s : σ) (l : List Element), ∃ s2, t.work_vec s l = .ok (s2, true)) :
    ∀ (n : Nat) (root : Element), element_size root ≤ n → ∀ s path,
      ∃ s2, Traversion.run t s path root = .ok (s2, path) := by
  intro n
  induction n with
  | zero =>
    intro root h
    exact absurd (le_trans (element_size_pos root) h) (by simp)
  | succ n ih =>
    intro root hs s path
    have hsub : ∀ (l : List Element), element_size_list l ≤ n →
        ∀ (s : σ) (path : List Element),
        ∃ s2, Traversion.run_vec t s path l = .ok (s2, path) := by
      intro l hl s' path'
      exact trav_run_vec_ok t hwv l
        (fun x hx s'' p'' => ih x (le_trans (element_size_le_of_mem hx) hl) s'' p'') s' path'
    obtain ⟨s1, hw1⟩ := hw s root
    cases root
    case Document pos content =>
      obtain ⟨s2, h2⟩ := hsub content (by simp only [element_size] at hs; omega) s1 (path ++ [Element.Document pos content])
      exact ⟨s2, by simp [Traversion.run, hw1, h2]⟩
    case Heading pos depth caption content =>
      obtain ⟨s2, h2⟩ := hsub caption (by simp only [element_size] at hs; omega) s1 (path ++ [Element.Heading pos depth caption content])
      obtain ⟨s3, h3⟩ := hsub content (by simp only [element_size] at hs; omega) s2 (path ++ [Element.Heading pos depth caption content])
      exact ⟨s3, by simp [Traversion.run, hw1, h2, h3]⟩
    case Text pos text =>
      exact ⟨s1, by simp [Traversion.run, hw1]⟩
    case Formatted pos markup content =>
      obtain ⟨s2, h2⟩ := hsub content (by simp only [element_size] at hs; omega) s1 (path ++ [Element.Formatted pos markup content])
      exact ⟨s2, by simp [Traversion.run, hw1, h2]⟩
    case Paragraph pos content =>
      obtain ⟨s2, h2⟩ := hsub content (by simp only [element_size] at hs; omega) s1 (path ++ [Element.Paragraph pos content])
      exact ⟨s2, by simp [Traversion.run, hw1, h2]⟩
    case Template pos name content =>
      obtain ⟨s2, h2⟩ := hsub content (by simp only [element_size] at hs; omega) s1 (path ++ [Element.Template pos name content])
      obtain ⟨s3, h3⟩ := hsub name (by simp only [element_size] at hs; omega) s2 (path ++ [Element.Template pos name content])
      exact ⟨s3, by simp [Traversion.run, hw1, h2, h3]⟩
    case TemplateArgument pos name value =>
      obtain ⟨s2, h2⟩ := hsub value (by simp only [element_size] at hs; omega) s1 (path ++ [Element.TemplateArgument pos name value])
      exact ⟨s2, by simp [Traversion.run, hw1, h2]⟩
    case InternalReference pos target options caption =>
      obtain ⟨s2, h2⟩ := hsub target (by simp only [element_size] at hs; omega) s1 (path ++ [Element.InternalReference pos target options caption])
      obtain ⟨s3, h3⟩ := trav_run_vec_options_ok t options
        (fun o ho s' p' => hsub o
          (le_trans (element_size_list_le_of_mem ho) (by simp only [element_size] at hs; omega)) s' p')
        s2 (path ++ [Element.InternalReference pos target options caption])
      obtain ⟨s4, h4⟩ := hsub caption (by simp only [element_size] at hs; omega) s3 (path ++ [Element.InternalReference pos target options caption])
      exact ⟨s4, by simp [Traversion.run, hw1, h2, h3, h4]⟩
    case ExternalReference pos target caption =>
      obtain ⟨s2, h2⟩ := hsub caption (by simp only [element_size] at hs; omega) s1 (path ++ [Element.ExternalReference pos target caption])
      exact ⟨s2, by simp [Traversion.run, hw1, h2]⟩
    case ListItem pos depth kind content =>
      obtain ⟨s2, h2⟩ := hsub content (by simp only [element_size] at hs; omega) s1 (path ++ [Element.ListItem pos depth kind content])
      exact ⟨s2, by simp [Traversion.run, hw1, h2]⟩
    case List pos content =>
      obtain ⟨s2, h2⟩ := hsub content (by simp only [element_size] at hs; omega) s1 (path ++ [Element.List pos content])
      exact ⟨s2, by simp [Traversion.run, hw1, h2]⟩
    case Table pos attributes caption caption_attributes rows =>
      obtain ⟨s2, h2⟩ := hsub caption (by simp only [element_size] at hs; omega) s1 (path ++ [Element.Table pos attributes caption caption_attributes rows])
      obtain ⟨s3, h3⟩ := hsub rows (by simp only [element_size] at hs; omega) s2 (path ++ [Element.Table pos attributes caption caption_attributes rows])
      exact ⟨s3, by simp [Traversion.run, hw1, h2, h3]⟩
    case TableRow pos attributes cells =>
      obtain ⟨s2, h2⟩ := hsub cells (by simp only [element_size] at hs; omega) s1 (path ++ [Element.TableRow pos attributes cells])
      exact ⟨s2, by simp [Traversion.run, hw1, h2]⟩
    case TableCell pos header attributes content =>
      obtain ⟨s2, h2⟩ := hsub content (by simp only [element_size] at hs; omega) s1 (path ++ [Element.TableCell pos header attributes content])
      exact ⟨s2, by simp [Traversion.run, hw1, h2]⟩
    case Comment pos text =>
      exact ⟨s1, by simp [Traversion.run, hw1]⟩
    case HtmlTag pos name attributes content =>
      obtain ⟨s2, h2⟩ := hsub content (by simp only [element_size] at hs; omega) s1 (path ++ [Element.HtmlTag pos name attributes content])
      exact ⟨s2, by simp [Traversion.run, hw1, h2]⟩
    case Gallery pos attributes content =>
      obtain ⟨s2, h2⟩ := hsub content (by simp only [element_size] at hs; omega) s1 (path ++ [Element.Gallery pos attributes content])
      exact ⟨s2, by simp [Traversion.run, hw1, h2]⟩
    case Error pos message =>
      exact ⟨s1, by simp [Traversion.run, hw1]⟩

/-- C9, counterexample: with a `work` hook that returns `false`,
`Traversion::run` returns early *without popping*: the path after the call
is `path ++ [root]`, not the path before the call — refuting "the path
after run returns equals the path before the call". -/
theorem c9_counterexample :
    Traversion.run prune_trav () [] (.Text Span.any "x") =
      .ok ((), [Element.Text Span.any "x"]) ∧
    [Element.Text Span.any "x"] ≠ ([] : List Element) := by
  constructor
  · simp [Traversion.run, prune_trav]
  · simp

/-- C9, amended: `run` pushes the node before calling the `work` hook;
when neither hook ever prunes (and no error occurs) the path after `run`
equals the path before the call; a `work` hook returning `false` prunes
recursion into that node's children but returns with the node still on
the path; a `work_vec` hook returning `false` prunes only that list's
elements and leaves the path unchanged. -/
theorem c9_amended :
    (∀ {σ : Type} (t : Traversion σ) (s : σ) (path : List Element) (root : Element),
      (∀ (s2 : σ) (e : Element), ∃ s3, t.work s2 e = .ok (s3, true)) →
      (∀ (s2 : σ) (l : List Element), ∃ s3, t.work_vec s2 l = .ok (s3, true)) →
      ∃ s2, Traversion.run t s path root = .ok (s2, path)) ∧
    (∀ {σ : Type} (t : Traversion σ) (s s2 : σ) (path : List Element) (root : Element),
      t.work s root = .ok (s2, false) →
      Traversion.run t s path root = .ok (s2, path ++ [root])) ∧
    (∀ {σ : Type} (t : Traversion σ) (s s2 : σ) (path content : List Element),
      t.work_vec s content = .ok (s2, false) →
      Traversion.run_vec t s path content = .ok (s2, path)) := by
  refine ⟨?_, ?_, ?_⟩
  · intro σ t s path root hw hwv
    exact trav_run_ok t hw hwv (element_size root) root le_rfl s path
  · intro σ t s s2 path root h
    simp [Traversion.run, h]
  · intro σ t s s2 path content h
    simp [Traversion.run_vec, h]

/-- C9, witness: the three amended conjuncts at concrete instances — the
always-continue hooks, the always-prune `work` hook, and an always-prune
`work_vec` hook, each on a single `Text` node with the empty path. -/
theorem c9_witness :
    (∃ s2, Traversion.run
        ({ work := fun s _ => .ok (s, true), work_vec := fun s _ => .ok (s, true) } :
          Traversion Unit) () [] (.Text Span.any "x") = .ok (s2, [])) ∧
    Traversion.run prune_trav () [] (.Text Span.any "x") =
      .ok ((), [] ++ [Element.Text Span.any "x"]) ∧
    Traversion.run_vec
      ({ work := fun s _ => .ok (s, true), work_vec := fun s _ => .ok (s, false) } :
        Traversion Unit) () [] [Element.Text Span.any "x"] = .ok ((), []) :=
  ⟨c9_amended.1 _ () [] (.Text Span.any "x")
      (fun s _ => ⟨s, rfl⟩) (fun s _ => ⟨s, rfl⟩),
   c9_amended.2.1 prune_trav () () [] (.Text Span.any "x") rfl,
   c9_amended.2.2 _ () () [] [Element.Text Span.any "x"] rfl⟩

/-- Bind on a failed `Except` computation. -/
@[simp]
theorem except_error_bind {ε α β : Type} (e : ε) (f : α → Except ε β) :
    (Except.error e >>= f : Except ε β) = .error e := rfl

/-- C1, counterexample: the in-place engine `recurse_inplace_template`
(`transformations.rs`) does not visit the `name` child list of a
`Template` at all: with a content handler that appends a marker to every
list it is given, the `name` list comes back without a marker — so the
engine does not visit every child list of every container variant exactly
once. -/
theorem c1_counterexample :
    transformations.recurse_inplace_template (fun e => .ok e)
      (.Template Span.any [.Text Span.any "n"] [])
      (apply_cf (fun l => l ++ [.Text Span.any "m"])) =
    .ok (.Template Span.any [.Text Span.any "n"] [.Text Span.any "m"]) ∧
    (Element.Template Span.any [.Text Span.any "n"] [.Text Span.any "m"]) ≠
      .Template Span.any [.Text Span.any "n", .Text Span.any "m"]
        [.Text Span.any "m"] := by
  constructor
  · rfl
  · simp

/-- The `mapM` loop over `Except` of a function that always succeeds. -/
theorem mapM_loop_ok {ε α β : Type} (f : α → Except ε β) (q : α → β)
    (hf : ∀ a, f a = .ok (q a)) :
    ∀ (l : List α) (acc : List β),
      List.mapM.loop f l acc = .ok (acc.reverse ++ l.map q) := by
  intro l
  induction l with
  | nil => intro acc; simp [List.mapM.loop]; rfl
  | cons a as ih => intro acc; simp [List.mapM.loop, hf, ih]

/-- `mapM` over `Except` of a function that always succeeds. -/
theorem mapM_ok_of_ok {ε α β : Type} (f : α → Except ε β) (q : α → β)
    (hf : ∀ a, f a = .ok (q a)) : ∀ l : List α, l.mapM f = .ok (l.map q) := by
  intro l
  rw [show l.mapM f = List.mapM.loop f l [] from rfl, mapM_loop_ok f q hf l]
  simp

/-- C1, amended: the two traversal families do visit each handled child
list exactly once and propagate the first handler error, but not in the
claimed order, and not every list.  The in-place engine
(`transformations.rs`) applies the handler to a `Heading`'s `content`
before its `caption`; it applies it to a `Template`'s `content` only —
the `name` list is never visited; for an `InternalReference` it applies
it to `target`, then `caption`, then each option list in order.
`Traversion::run` visits a `Heading`'s `caption` before its `content`, a
`Template`'s `content` before its `name`, and an `InternalReference`'s
`target`, then each option list in order, then `caption`.  Scalar fields
are left untouched. -/
theorem c1_amended :
    (∀ (f : transformations.TFuncInplace) (g : List Element → Option MWError)
        (pos : Span) (d : Nat) (cap con : List Element) (e : MWError),
      g con = some e →
      transformations.recurse_inplace_template f (.Heading pos d cap con) (probe_cf g) =
        .error e) ∧
    (∀ (f : transformations.TFuncInplace) (g : List Element → Option MWError)
        (pos : Span) (d : Nat) (cap con : List Element) (e : MWError),
      g con = none → g cap = some e →
      transformations.recurse_inplace_template f (.Heading pos d cap con) (probe_cf g) =
        .error e) ∧
    (∀ (f : transformations.TFuncInplace) (r : List Element → List Element)
        (pos : Span) (d : Nat) (cap con : List Element),
      transformations.recurse_inplace_template f (.Heading pos d cap con) (apply_cf r) =
        .ok (.Heading pos d (r cap) (r con))) ∧
    (∀ (f : transformations.TFuncInplace) (g : List Element → Option MWError)
        (pos : Span) (nm con : List Element) (e : MWError),
      g con = some e →
      transformations.recurse_inplace_template f (.Template pos nm con) (probe_cf g) =
        .error e) ∧
    (∀ (f : transformations.TFuncInplace) (g : List Element → Option MWError)
        (pos : Span) (nm con : List Element),
      g con = none →
      transformations.recurse_inplace_template f (.Template pos nm con) (probe_cf g) =
        .ok (.Template pos nm con)) ∧
    (∀ (f : transformations.TFuncInplace) (r : List Element → List Element)
        (pos : Span) (nm con : List Element),
      transformations.recurse_inplace_template f (.Template pos nm con) (apply_cf r) =
        .ok (.Template pos nm (r con))) ∧
    (∀ (f : transformations.TFuncInplace) (g : List Element → Option MWError)
        (pos : Span) (tgt : List Element) (opts : List (List Element))
        (cap : List Element) (e : MWError),
      g tgt = some e →
      transformations.recurse_inplace_template f (.InternalReference pos tgt opts cap)
        (probe_cf g) = .error e) ∧
    (∀ (f : transformations.TFuncInplace) (g : List Element → Option MWError)
        (pos : Span) (tgt : List Element) (opts : List (List Element))
        (cap : List Element) (e : MWError),
      g tgt = none → g cap = some e →
      transformations.recurse_inplace_template f (.InternalReference pos tgt opts cap)
        (probe_cf g) = .error e) ∧
    (∀ (f : transformations.TFuncInplace) (g : List Element → Option MWError)
        (pos : Span) (tgt o : List Element) (os : List (List Element))
        (cap : List Element) (e : MWError),
      g tgt = none → g cap = none → g o = some e →
      transformations.recurse_inplace_template f
        (.InternalReference pos tgt (o :: os) cap) (probe_cf g) = .error e) ∧
    (∀ (f : transformations.TFuncInplace) (r : List Element → List Element)
        (pos : Span) (tgt : List Element) (opts : List (List Element))
        (cap : List Element),
      transformations.recurse_inplace_template f (.InternalReference pos tgt opts cap)
        (apply_cf r) = .ok (.InternalReference pos (r tgt) (opts.map r) (r cap))) ∧
    (∀ (g : List Element → Option MWError) (path : List Element) (pos : Span)
        (d : Nat) (cap con : List Element) (e : MWError),
      g cap = some e →
      Traversion.run (probe_trav g) () path (.Heading pos d cap con) = .error e) ∧
    (∀ (g : List Element → Option MWError) (path : List Element) (pos p : Span)
        (a : String) (con : List Element) (e : MWError),
      g [Element.Text p a] = none → g con = some e →
      Traversion.run (probe_trav g) () path (.Heading pos 1 [.Text p a] con) = .error e) ∧
    (∀ (g : List Element → Option MWError) (path : List Element) (pos : Span)
        (nm con : List Element) (e : MWError),
      g con = some e →
      Traversion.run (probe_trav g) () path (.Template pos nm con) = .error e) ∧
    (∀ (g : List Element → Option MWError) (path : List Element) (pos p : Span)
        (a : String) (nm : List Element) (e : MWError),
      g [Element.Text p a] = none → g nm = some e →
      Traversion.run (probe_trav g) () path (.Template pos nm [.Text p a]) = .error e) ∧
    (∀ (g : List Element → Option MWError) (path : List Element) (pos : Span)
        (tgt : List Element) (opts : List (List Element)) (cap : List Element)
        (e : MWError),
      g tgt = some e →
      Traversion.run (probe_trav g) () path (.InternalReference pos tgt opts cap) =
        .error e) ∧
    (∀ (g : List Element → Option MWError) (path : List Element) (pos p : Span)
        (a : String) (o : List Element) (os : List (List Element))
        (cap : List Element) (e : MWError),
      g [Element.Text p a] = none → g o = some e →
      Traversion.run (probe_trav g) () path
        (.InternalReference pos [.Text p a] (o :: os) cap) = .error e) ∧
    (∀ (g : List Element → Option MWError) (path : List Element) (pos p q : Span)
        (a b : String) (cap : List Element) (e : MWError),
      g [Element.Text p a] = none → g [Element.Text q b] = none → g cap = some e →
      Traversion.run (probe_trav g) () path
        (.InternalReference pos [.Text p a] [[.Text q b]] cap) = .error e) := by
  refine ⟨?_, ?_, ?_, ?_, ?_, ?_, ?_, ?_, ?_, ?_, ?_, ?_, ?_, ?_, ?_, ?_, ?_⟩
  · intro f g pos d cap con e h
    simp [transformations.recurse_inplace_template, probe_cf, h]
  · intro f g pos d cap con e h1 h2
    simp [transformations.recurse_inplace_template, probe_cf, h1, h2]
  · intro f r pos d cap con
    simp [transformations.recurse_inplace_template, apply_cf]
  · intro f g pos nm con e h
    simp [transformations.recurse_inplace_template, probe_cf, h]
  · intro f g pos nm con h
    simp [transformations.recurse_inplace_template, probe_cf, h]
  · intro f r pos nm con
    simp [transformations.recurse_inplace_template, apply_cf]
  · intro f g pos tgt opts cap e h
    simp [transformations.recurse_inplace_template, probe_cf, h]
  · intro f g pos tgt opts cap e h1 h2
    simp [transformations.recurse_inplace_template, probe_cf, h1, h2]
  · intro f g pos tgt o os cap e h1 h2 h3
    simp [transformations.recurse_inplace_template, probe_cf, h1, h2, h3,
      List.mapM.loop, Except.map]
  · intro f r pos tgt opts cap
    simp [transformations.recurse_inplace_template, apply_cf,
      mapM_loop_ok (fun option => Except.map Prod.snd (Except.ok ([], r option)))
        r (fun a => rfl) opts]
  · intro g path pos d cap con e h
    simp [Traversion.run, Traversion.run_vec, probe_trav, h]
  · intro g path pos p a con e h1 h2
    simp [Traversion.run, Traversion.run_vec, Traversion.run_elems, probe_trav, h1, h2]
  · intro g path pos nm con e h
    simp [Traversion.run, Traversion.run_vec, probe_trav, h]
  · intro g path pos p a nm e h1 h2
    simp [Traversion.run, Traversion.run_vec, Traversion.run_elems, probe_trav, h1, h2]
  · intro g path pos tgt opts cap e h
    simp [Traversion.run, Traversion.run_vec, probe_trav, h]
  · intro g path pos p a o os cap e h1 h2
    simp [Traversion.run, Traversion.run_vec, Traversion.run_elems,
      Traversion.run_vec_options, probe_trav, h1, h2]
  · intro g path pos p q a b cap e h1 h2 h3
    simp [Traversion.run, Traversion.run_vec, Traversion.run_elems,
      Traversion.run_vec_options, probe_trav, h1, h2, h3]

/-- C1, witness: three amended conjuncts at concrete inputs — the
in-place engine probes a `Heading`'s content first; it returns a
`Template` untouched even though the probe would fail on the `name` list;
and `Traversion::run` on a `Template` only reaches the `name` list after
the content list succeeded. -/
theorem c1_witness :
    transformations.recurse_inplace_template (fun e => .ok e)
        (.Heading Span.any 1 [] [])
        (probe_cf (fun _ => some (MWError.TransformationError
          { cause := "probe", position := Span.any
            transformation_name := "probe", tree := .Text Span.any "" }))) =
      .error (MWError.TransformationError
        { cause := "probe", position := Span.any
          transformation_name := "probe", tree := .Text Span.any "" }) ∧
    transformations.recurse_inplace_template (fun e => .ok e)
        (.Template Span.any [.Text Span.any "n"] []) (probe_cf (fun _ => none)) =
      .ok (.Template Span.any [.Text Span.any "n"] []) ∧
    Traversion.run
      (probe_trav (fun l =>
        match l with
        | [Element.Text _ t] =>
          if t = "c" then none
          else some (MWError.TransformationError
            { cause := "probe", position := Span.any
              transformation_name := "probe", tree := .Text Span.any "" })
        | _ => some (MWError.TransformationError
            { cause := "probe", position := Span.any
              transformation_name := "probe", tree := .Text Span.any "" })))
      () [] (.Template Span.any [.Text Span.any "n"] [.Text Span.any "c"]) =
      .error (MWError.TransformationError
        { cause := "probe", position := Span.any
          transformation_name := "probe", tree := .Text Span.any "" }) := by
  obtain ⟨h1, -, -, -, h5, -, -, -, -, -, -, -, -, h14, -, -, -⟩ := c1_amended
  refine ⟨h1 (fun e => .ok e) _ Span.any 1 [] [] _ rfl,
    h5 (fun e => .ok e) (fun _ => none) Span.any [.Text Span.any "n"] [] rfl,
    h14 _ [] Span.any Span.any "c" [.Text Span.any "n"] _ rfl rfl⟩
